import Mathlib

/-!
Shallow embedding of the bowling scoring engine (`src/scoring.py`) and the
claims of the specification settled against it.

Rolls are Python ints, modelled as `Int`.  Mutation is modelled by state
passing: every operation that mutates a `BowlingGame` or `GameManager`
returns the successor state.  A Python `raise ValueError` is modelled as
`Except.error`; since the source raises before any mutation, a failing call
yields no successor state at all, so "no partial mutation on failure" holds
by construction.  Python list indexing is totalized with `List.getD`; the
out-of-range cases never occur in reachable states.
-/

namespace Bowling

/-! ## Definitions: the embedded data model and operations -/

/-- The roll-outcome descriptor built by `BowlingGame.add_roll`
(the `result` dict in the source). -/
structure RollResult where
  is_strike : Bool
  is_spare : Bool
  frame_complete : Bool
  game_complete : Bool
  deriving DecidableEq, Repr

/-- State of `BowlingGame` (`src/scoring.py`, `__init__`): identity fields,
ten frames each a growable list of rolls, the current frame cursor and the
completion flag. -/
structure BowlingGame where
  player_id : Int
  player_name : String
  game_id : Option Int
  frames : List (List Int)
  current_frame : Nat
  is_complete : Bool
  deriving DecidableEq, Repr

/-- Embedding of `BowlingGame.__init__`. -/
def initGame (player_id : Int) (player_name : String) (game_id : Option Int) : BowlingGame :=
  ⟨player_id, player_name, game_id, List.replicate 10 [], 0, false⟩

/-- The frames list after `self.frames[self.current_frame].append(pins)`. -/
def newFrames (g : BowlingGame) (pins : Int) : List (List Int) :=
  g.frames.set g.current_frame (g.frames.getD g.current_frame [] ++ [pins])

/-- The current frame's contents after the append. -/
def curF1 (g : BowlingGame) (pins : Int) : List Int :=
  (newFrames g pins).getD g.current_frame []

/-- The tenth frame's contents after the append (`frame_10` in the source). -/
def tenF (g : BowlingGame) (pins : Int) : List Int :=
  (newFrames g pins).getD 9 []

/-- Common return path of `BowlingGame.add_roll` (`src/scoring.py` lines
90-95): after classification, run the final `current_frame >= 10` completion
check and return the updated state paired with the descriptor. -/
def finishRoll (g : BowlingGame) (pins : Int) (cf : Nat) (comp : Bool) (r : RollResult) :
    Except String (BowlingGame × RollResult) :=
  if 10 ≤ cf then
    Except.ok ({ g with frames := newFrames g pins, current_frame := cf, is_complete := true },
      { r with game_complete := true })
  else
    Except.ok ({ g with frames := newFrames g pins, current_frame := cf, is_complete := comp }, r)

/-- Embedding of `BowlingGame.add_roll` (`src/scoring.py` lines 30-95): validation, the
append (inside `newFrames`), the frames-1-9 / frame-10 outcome
classification, and the common return path `finishRoll`. -/
def BowlingGame.add_roll (g : BowlingGame) (pins : Int) :
    Except String (BowlingGame × RollResult) :=
  if g.is_complete then Except.error "Game is already complete"
  else if pins < 0 ∨ 10 < pins then Except.error "Pins must be between 0 and 10"
  else if g.current_frame < 9 then
    if pins = 10 then
      finishRoll g pins (g.current_frame + 1) g.is_complete ⟨true, false, true, false⟩
    else if (curF1 g pins).length = 2 then
      finishRoll g pins (g.current_frame + 1) g.is_complete
        ⟨false, decide ((curF1 g pins).sum = 10), true, false⟩
    else
      finishRoll g pins g.current_frame g.is_complete ⟨false, false, false, false⟩
  else if (tenF g pins).length = 1 ∧ pins = 10 then
    finishRoll g pins g.current_frame g.is_complete ⟨true, false, false, false⟩
  else if (tenF g pins).length = 2 then
    if (tenF g pins).headD 0 < 10 ∧ (tenF g pins).sum < 10 then
      finishRoll g pins g.current_frame true
        ⟨false, decide ((tenF g pins).sum = 10), true, true⟩
    else
      finishRoll g pins g.current_frame g.is_complete
        ⟨false, decide ((tenF g pins).sum = 10), false, false⟩
  else if (tenF g pins).length = 3 then
    finishRoll g pins g.current_frame true ⟨false, false, true, true⟩
  else
    finishRoll g pins g.current_frame g.is_complete ⟨false, false, false, false⟩

/-- Inner `for` loop of `BowlingGame._get_next_n_rolls`: append the rolls of
one frame to the accumulator, stopping as soon as `n` rolls are gathered. -/
def addFromFrame (acc : List Int) (n : Nat) : List Int → List Int
  | [] => acc
  | r :: rs =>
    if n ≤ (acc ++ [r]).length then acc ++ [r]
    else addFromFrame (acc ++ [r]) n rs

/-- Outer `while` loop of `BowlingGame._get_next_n_rolls`; `fuel` counts the
frame indices still below 10, so fuel `10 - idx` realizes `current_idx < 10`. -/
def nextRollsLoop (g : BowlingGame) (n : Nat) : Nat → Nat → List Int → List Int
  | 0, _, acc => acc
  | fuel + 1, idx, acc =>
    if acc.length < n then
      nextRollsLoop g n fuel (idx + 1) (addFromFrame acc n (g.frames.getD idx []))
    else acc

/-- Embedding of `BowlingGame._get_next_n_rolls` (lines 139-160). -/
def BowlingGame.get_next_n_rolls (g : BowlingGame) (frame_index n : Nat) : List Int :=
  nextRollsLoop g n (10 - (frame_index + 1)) (frame_index + 1) []

/-- Embedding of `BowlingGame.calculate_frame_score` (lines 97-137). -/
def BowlingGame.calculate_frame_score (g : BowlingGame) (frame_index : Nat) : Option Int :=
  let frame := g.frames.getD frame_index []
  if frame = [] then none
  else if frame_index = 9 then some frame.sum
  else if frame.headD 0 = 10 then
    let next_rolls := g.get_next_n_rolls frame_index 2
    if next_rolls.length < 2 then none
    else some (10 + next_rolls.sum)
  else if frame.length = 2 ∧ frame.sum = 10 then
    let next_rolls := g.get_next_n_rolls frame_index 1
    if next_rolls.length < 1 then none
    else some (10 + next_rolls.headD 0)
  else if frame.length = 2 then some frame.sum
  else none

/-- Loop of `BowlingGame.get_total_score` (lines 162-181): accumulate frame
scores in order, stopping at the first frame that cannot be scored yet. -/
def totalFrom (g : BowlingGame) : Nat → Nat → Int → Bool → Option Int
  | 0, _, total, any_scored => if any_scored then some total else none
  | fuel + 1, i, total, any_scored =>
    match g.calculate_frame_score i with
    | some s => totalFrom g fuel (i + 1) (total + s) true
    | none => if any_scored then some total else none

/-- Embedding of `BowlingGame.get_total_score`. -/
def BowlingGame.get_total_score (g : BowlingGame) : Option Int :=
  totalFrom g 10 0 0 false

/-- Loop of `BowlingGame.get_cumulative_scores` (lines 183-205): on the first
frame that cannot be scored, all remaining entries become `none`. -/
def cumulativeFrom (g : BowlingGame) : Nat → Nat → Int → List (Option Int)
  | 0, _, _ => []
  | fuel + 1, i, running_total =>
    match g.calculate_frame_score i with
    | none => List.replicate (fuel + 1) none
    | some s => some (running_total + s) :: cumulativeFrom g fuel (i + 1) (running_total + s)

/-- Embedding of `BowlingGame.get_cumulative_scores`. -/
def BowlingGame.get_cumulative_scores (g : BowlingGame) : List (Option Int) :=
  cumulativeFrom g 10 0 0

/-- Embedding of `BowlingGame.get_current_frame_number` (lines 207-214). -/
def BowlingGame.get_current_frame_number (g : BowlingGame) : Nat :=
  min (g.current_frame + 1) 10

/-- Embedding of `BowlingGame.get_current_roll_in_frame` (lines 216-223). -/
def BowlingGame.get_current_roll_in_frame (g : BowlingGame) : Nat :=
  (g.frames.getD g.current_frame []).length + 1

/-- Embedding of `BowlingGame.is_frame_complete` (lines 225-248). -/
def BowlingGame.is_frame_complete (g : BowlingGame) (frame_index : Nat) : Bool :=
  let frame := g.frames.getD frame_index []
  if frame_index < 9 then
    decide (0 < frame.length ∧ (frame.headD 0 = 10 ∨ frame.length = 2))
  else
    if frame.length < 2 then false
    else if frame.headD 0 = 10 ∨ (2 ≤ frame.length ∧ (frame.take 2).sum = 10) then
      decide (frame.length = 3)
    else decide (frame.length = 2)

/-- Embedding of `BowlingGame.get_max_pins_for_current_roll` (lines 250-285). -/
def BowlingGame.get_max_pins_for_current_roll (g : BowlingGame) : Int :=
  if g.is_complete then 0
  else
    let current_rolls := g.frames.getD g.current_frame []
    if current_rolls.length = 0 then 10
    else if g.current_frame = 9 ∧ current_rolls.length = 1 then
      if current_rolls.headD 0 = 10 then 10 else 10 - current_rolls.headD 0
    else if g.current_frame = 9 ∧ current_rolls.length = 2 then
      if current_rolls.getD 1 0 = 10 then 10
      else if current_rolls.headD 0 + current_rolls.getD 1 0 = 10 then 10
      else 0
    else 10 - current_rolls.headD 0

/-- Run a list of rolls through `add_roll`, `none` if any roll fails. -/
def applyRolls : BowlingGame → List Int → Option BowlingGame
  | g, [] => some g
  | g, p :: ps =>
    match g.add_roll p with
    | Except.ok (g', _) => applyRolls g' ps
    | Except.error _ => none

/-- Run a list of rolls, collecting every returned descriptor. -/
def applyRollsResults : BowlingGame → List Int → Option (BowlingGame × List RollResult)
  | g, [] => some (g, [])
  | g, p :: ps =>
    match g.add_roll p with
    | Except.ok (g', r) =>
      match applyRollsResults g' ps with
      | some (g'', rs) => some (g'', r :: rs)
      | none => none
    | Except.error _ => none

/-- States of a single game reachable through successful `add_roll` calls. -/
inductive Reachable : BowlingGame → Prop
  | init (player_id : Int) (player_name : String) (game_id : Option Int) :
      Reachable (initGame player_id player_name game_id)
  | step (g g' : BowlingGame) (pins : Int) (r : RollResult) :
      Reachable g → g.add_roll pins = Except.ok (g', r) → Reachable g'

/-- States reachable through successful `add_roll` calls in which every roll
additionally respects `get_max_pins_for_current_roll`, which is how the
presentation layer submits rolls (it only enables pin buttons up to the
announced maximum). -/
inductive ReachableGated : BowlingGame → Prop
  | init (player_id : Int) (player_name : String) (game_id : Option Int) :
      ReachableGated (initGame player_id player_name game_id)
  | step (g g' : BowlingGame) (pins : Int) (r : RollResult) :
      ReachableGated g → pins ≤ g.get_max_pins_for_current_roll →
      g.add_roll pins = Except.ok (g', r) → ReachableGated g'

/-- The augmented descriptor returned by `GameManager.record_roll`: the
`add_roll` descriptor plus the acting player's name and the
all-games-complete flag. -/
structure MatchRollResult where
  is_strike : Bool
  is_spare : Bool
  frame_complete : Bool
  game_complete : Bool
  player_name : String
  all_games_complete : Bool
  deriving DecidableEq, Repr

/-- State of `GameManager` (`src/scoring.py`, lines 288-294). -/
structure GameManager where
  players : List BowlingGame
  current_player_index : Nat
  deriving DecidableEq, Repr

/-- Embedding of `GameManager.__init__`. -/
def initManager : GameManager := ⟨[], 0⟩

/-- Default used to totalize Python list indexing on players. -/
def defaultGame : BowlingGame := initGame 0 "" none

/-- Embedding of `GameManager.add_player` (lines 296-306). -/
def GameManager.add_player (m : GameManager) (player_id : Int) (player_name : String)
    (game_id : Option Int) : GameManager :=
  { m with players := m.players ++ [initGame player_id player_name game_id] }

/-- Embedding of `GameManager.get_current_player` (lines 308-317). -/
def GameManager.get_current_player (m : GameManager) : Option BowlingGame :=
  if m.players = [] then none
  else some (m.players.getD m.current_player_index defaultGame)

/-- The while loop of `GameManager._advance_to_next_player` (lines 354-362):
skip players whose games are complete; `fuel` plays the role of the
`attempts < len(self.players)` bound. -/
def skipComplete (players : List BowlingGame) : Nat → Nat → Nat
  | 0, idx => idx
  | fuel + 1, idx =>
    if (players.getD idx defaultGame).is_complete = false then idx
    else skipComplete players fuel ((idx + 1) % players.length)

/-- Embedding of `GameManager._advance_to_next_player` (lines 349-362). -/
def GameManager.advance_to_next_player (m : GameManager) : GameManager :=
  let idx0 := (m.current_player_index + 1) % m.players.length
  { m with current_player_index := skipComplete m.players m.players.length idx0 }

/-- Embedding of `GameManager.record_roll` (lines 319-347). -/
def GameManager.record_roll (m : GameManager) (pins : Int) :
    Except String (GameManager × MatchRollResult) :=
  match m.get_current_player with
  | none => Except.error "No players in game"
  | some current_player =>
    match current_player.add_roll pins with
    | Except.error e => Except.error e
    | Except.ok (p', r) =>
      let m1 : GameManager :=
        { m with players := m.players.set m.current_player_index p' }
      let m2 := if r.frame_complete then m1.advance_to_next_player else m1
      Except.ok (m2,
        ⟨r.is_strike, r.is_spare, r.frame_complete, r.game_complete,
          current_player.player_name, m2.players.all (fun p => p.is_complete)⟩)

/-- Embedding of `GameManager.get_winner` loop (lines 374-382): keep the first player
whose score strictly exceeds the running highest (initially -1). -/
def winnerLoop : List BowlingGame → Option BowlingGame → Int → Option BowlingGame
  | [], w, _ => w
  | p :: ps, w, highest_score =>
    match p.get_total_score with
    | some s => if highest_score < s then winnerLoop ps (some p) s else winnerLoop ps w highest_score
    | none => winnerLoop ps w highest_score

/-- Embedding of `GameManager.get_winner` (lines 364-383). -/
def GameManager.get_winner (m : GameManager) : Option BowlingGame :=
  if m.players.all (fun p => p.is_complete) then winnerLoop m.players none (-1)
  else none

/-- Embedding of `GameManager.is_game_complete` (lines 385-392). -/
def GameManager.is_game_complete (m : GameManager) : Bool :=
  m.players.all (fun p => p.is_complete)

/-- Run a list of rolls through `record_roll`, `none` if any roll fails. -/
def applyRollsM : GameManager → List Int → Option GameManager
  | m, [] => some m
  | m, p :: ps =>
    match m.record_roll p with
    | Except.ok (m', _) => applyRollsM m' ps
    | Except.error _ => none

/-- Match states reachable through `add_player` and successful `record_roll`
calls from the empty manager. -/
inductive ReachableM : GameManager → Prop
  | init : ReachableM initManager
  | add (m : GameManager) (player_id : Int) (player_name : String) (game_id : Option Int) :
      ReachableM m → ReachableM (m.add_player player_id player_name game_id)
  | roll (m m' : GameManager) (pins : Int) (r : MatchRollResult) :
      ReachableM m → m.record_roll pins = Except.ok (m', r) → ReachableM m'

/-- Shape of a structurally complete frame among frames 1-9 in any state
reachable through `add_roll`: a strike `[10]`, or two rolls whose first is
below 10. -/
def completedF (f : List Int) : Prop :=
  f = [10] ∨ (f.length = 2 ∧ f.headD 0 < 10)

/-- Invariant of `BowlingGame` states reachable through `add_roll`. -/
structure Inv (g : BowlingGame) : Prop where
  flen : g.frames.length = 10
  cf_le : g.current_frame ≤ 9
  before : ∀ i, i < g.current_frame → completedF (g.frames.getD i [])
  frames_after : ∀ i, g.current_frame < i → g.frames.getD i [] = []
  cur : g.current_frame < 9 →
    (g.frames.getD g.current_frame []).length ≤ 1 ∧
      ∀ x ∈ g.frames.getD g.current_frame [], 0 ≤ x ∧ x < 10
  valid : ∀ f ∈ g.frames, ∀ x ∈ f, 0 ≤ x ∧ x ≤ 10
  open9 : g.is_complete = false → g.current_frame = 9 → (g.frames.getD 9 []).length ≤ 2
  done : g.is_complete = true →
    g.current_frame = 9 ∧
      ((g.frames.getD 9 []).length = 3 ∨
        ((g.frames.getD 9 []).length = 2 ∧ (g.frames.getD 9 []).headD 0 < 10 ∧
          (g.frames.getD 9 []).sum < 10))

/-- The rolls of frames `idx, idx+1, ..., idx+fuel-1`, in order. -/
def framesFrom (g : BowlingGame) : Nat → Nat → List Int
  | _, 0 => []
  | idx, fuel + 1 => g.frames.getD idx [] ++ framesFrom g (idx + 1) fuel

/-- All rolls recorded in frames after frame `i`, in frame order. -/
def rollsAfter (g : BowlingGame) (i : Nat) : List Int :=
  (g.frames.drop (i + 1)).flatten

/-- Reference accumulator: the sum of `calculate_frame_score` over frames
`i .. i+k`, or `none` as soon as one of them is not yet computable. -/
def sumScoresFrom (g : BowlingGame) : Nat → Nat → Option Int
  | i, 0 => g.calculate_frame_score i
  | i, k + 1 =>
    match g.calculate_frame_score i, sumScoresFrom g (i + 1) k with
    | some a, some b => some (a + b)
    | _, _ => none

/-- Modelled from the spec: `get_provisional_frame_score` is invoked by the
presentation layer (`src/ui/scoring_screen.py`, `update_player_scorecard`)
but no definition of it exists in `src/scoring.py`.  Per spec section 4.1 it
is "identical to frame_score but treats any not-yet-available bonus roll as
0 rather than returning not-yet-computable": the branch structure below
mirrors `calculate_frame_score` with every `none` replaced by the sum of
whatever rolls are available. -/
def BowlingGame.get_provisional_frame_score (g : BowlingGame) (i : Nat) : Int :=
  let frame := g.frames.getD i []
  if i = 9 then frame.sum
  else if frame.headD 0 = 10 then 10 + (g.get_next_n_rolls i 2).sum
  else if frame.length = 2 ∧ frame.sum = 10 then 10 + (g.get_next_n_rolls i 1).sum
  else frame.sum

/-- Invariant of reachable match states. -/
structure InvM (m : GameManager) : Prop where
  cursor_lt : m.players ≠ [] → m.current_player_index < m.players.length
  cursor_zero : m.players = [] → m.current_player_index = 0
  players_reach : ∀ p ∈ m.players, Reachable p

/-- Pin-total bound for frames 1-9, maintained when play is gated by
`get_max_pins_for_current_roll`. -/
def PInv (g : BowlingGame) : Prop :=
  ∀ i, i < 9 → ((g.frames.getD i []).take 2).sum ≤ 10

/-- State after submit_roll(5): frame 1 holds [5]. -/
def midGame : BowlingGame :=
  ⟨0, "", none, [[5], [], [], [], [], [], [], [], [], []], 0, false⟩

/-- State after submit_roll(5) then submit_roll(8): frame 1 holds [5, 8]. -/
def overTenGame : BowlingGame :=
  ⟨0, "", none, [[5, 8], [], [], [], [], [], [], [], [], []], 1, false⟩

/-- Final state of a perfect game (12 consecutive strikes). -/
def perfectGameState : BowlingGame :=
  ⟨0, "", none, [[10], [10], [10], [10], [10], [10], [10], [10], [10], [10, 10, 10]], 9, true⟩

/-- Final state of a gutter game (20 rolls of 0). -/
def gutterGameState : BowlingGame :=
  ⟨0, "", none, List.replicate 10 [0, 0], 9, true⟩

/-- A state whose cursor sits on an empty tenth frame. -/
def tenthTestGame : BowlingGame :=
  ⟨0, "", none, List.replicate 10 [], 9, false⟩

/-- A state whose tenth frame holds a strike, awaiting the second delivery. -/
def tenthStrikeGame : BowlingGame :=
  ⟨0, "", none, [[], [], [], [], [], [], [], [], [], [10]], 9, false⟩

/-- State after a first roll of 3 then 4: frame 1 is an open [3, 4]. -/
def openFrameGame : BowlingGame :=
  ⟨0, "", none, [[3, 4], [], [], [], [], [], [], [], [], []], 1, false⟩

/-- A one-player match before any roll. -/
def startM1 : GameManager := (initManager).add_player 1 "A" none

/-- The one-player match `startM1` after its player's first roll of 0. -/
def afterM1 : GameManager :=
  ⟨[⟨1, "A", none, [[0], [], [], [], [], [], [], [], [], []], 0, false⟩], 0⟩

/-- The one-player match `startM1` after a full gutter game (20 rolls of 0). -/
def gutterMatchDone : GameManager :=
  ⟨[⟨1, "A", none, List.replicate 10 [0, 0], 9, true⟩], 0⟩

/-! ## Theorems -/

theorem add_roll_error_complete (g : BowlingGame) (pins : Int) (h : g.is_complete = true) :
    g.add_roll pins = Except.error "Game is already complete" := by
  simp [BowlingGame.add_roll, h]

theorem add_roll_error_range (g : BowlingGame) (pins : Int) (h : g.is_complete = false)
    (hr : pins < 0 ∨ 10 < pins) :
    g.add_roll pins = Except.error "Pins must be between 0 and 10" := by
  simp [BowlingGame.add_roll, h, hr]

theorem add_roll_ok_of_valid (g : BowlingGame) (pins : Int) (h : g.is_complete = false)
    (h0 : 0 ≤ pins) (h10 : pins ≤ 10) :
    ∃ g' r, g.add_roll pins = Except.ok (g', r) := by
  have hnot : ¬(pins < 0 ∨ 10 < pins) := by omega
  simp only [BowlingGame.add_roll, h, Bool.false_eq_true, if_false, hnot]
  repeat' split
  all_goals unfold finishRoll
  repeat' split
  all_goals exact ⟨_, _, rfl⟩

theorem finishRoll_ok (g : BowlingGame) (pins : Int) (cf : Nat) (comp : Bool) (r : RollResult)
    (g' : BowlingGame) (r' : RollResult) (hlt : cf < 10)
    (h : finishRoll g pins cf comp r = Except.ok (g', r')) :
    g' = { g with frames := newFrames g pins, current_frame := cf, is_complete := comp } ∧
      r' = r := by
  unfold finishRoll at h
  rw [if_neg (by omega)] at h
  simp only [Except.ok.injEq, Prod.mk.injEq] at h
  exact ⟨h.1.symm, h.2.symm⟩

theorem add_roll_ok_spec (g g' : BowlingGame) (pins : Int) (r : RollResult)
    (hcf : g.current_frame ≤ 9) (h : g.add_roll pins = Except.ok (g', r)) :
    g.is_complete = false ∧ 0 ≤ pins ∧ pins ≤ 10 ∧
    g'.player_id = g.player_id ∧ g'.player_name = g.player_name ∧ g'.game_id = g.game_id ∧
    g'.frames = newFrames g pins ∧
    ((g.current_frame < 9 ∧ pins = 10 ∧
        g'.current_frame = g.current_frame + 1 ∧ g'.is_complete = false ∧
        r = ⟨true, false, true, false⟩) ∨
     (g.current_frame < 9 ∧ pins ≠ 10 ∧ (curF1 g pins).length = 2 ∧
        g'.current_frame = g.current_frame + 1 ∧ g'.is_complete = false ∧
        r = ⟨false, decide ((curF1 g pins).sum = 10), true, false⟩) ∨
     (g.current_frame < 9 ∧ pins ≠ 10 ∧ (curF1 g pins).length ≠ 2 ∧
        g'.current_frame = g.current_frame ∧ g'.is_complete = false ∧
        r = ⟨false, false, false, false⟩) ∨
     (g.current_frame = 9 ∧ (tenF g pins).length = 1 ∧ pins = 10 ∧
        g'.current_frame = 9 ∧ g'.is_complete = false ∧
        r = ⟨true, false, false, false⟩) ∨
     (g.current_frame = 9 ∧ ¬((tenF g pins).length = 1 ∧ pins = 10) ∧
        (tenF g pins).length = 2 ∧
        (tenF g pins).headD 0 < 10 ∧ (tenF g pins).sum < 10 ∧
        g'.current_frame = 9 ∧ g'.is_complete = true ∧
        r = ⟨false, decide ((tenF g pins).sum = 10), true, true⟩) ∨
     (g.current_frame = 9 ∧ ¬((tenF g pins).length = 1 ∧ pins = 10) ∧
        (tenF g pins).length = 2 ∧
        ¬((tenF g pins).headD 0 < 10 ∧ (tenF g pins).sum < 10) ∧
        g'.current_frame = 9 ∧ g'.is_complete = false ∧
        r = ⟨false, decide ((tenF g pins).sum = 10), false, false⟩) ∨
     (g.current_frame = 9 ∧ ¬((tenF g pins).length = 1 ∧ pins = 10) ∧
        (tenF g pins).length ≠ 2 ∧ (tenF g pins).length = 3 ∧
        g'.current_frame = 9 ∧ g'.is_complete = true ∧
        r = ⟨false, false, true, true⟩) ∨
     (g.current_frame = 9 ∧ ¬((tenF g pins).length = 1 ∧ pins = 10) ∧
        (tenF g pins).length ≠ 2 ∧ (tenF g pins).length ≠ 3 ∧
        g'.current_frame = 9 ∧ g'.is_complete = false ∧
        r = ⟨false, false, false, false⟩)) := by
  have hc : g.is_complete = false := by
    cases hx : g.is_complete
    · rfl
    · simp [BowlingGame.add_roll, hx] at h
  have hrange : ¬(pins < 0 ∨ 10 < pins) := by
    intro hcon
    simp [BowlingGame.add_roll, hc, hcon] at h
  simp only [BowlingGame.add_roll, hc, Bool.false_eq_true, if_false, hrange] at h
  refine ⟨hc, by omega, by omega, ?_⟩
  by_cases h9 : g.current_frame < 9
  · rw [if_pos h9] at h
    by_cases hp : pins = 10
    · rw [if_pos hp] at h
      obtain ⟨hg', hr'⟩ := finishRoll_ok _ _ _ _ _ _ _ (by omega) h
      subst hg'; subst hr'
      exact ⟨rfl, rfl, rfl, rfl, Or.inl ⟨h9, hp, rfl, rfl, rfl⟩⟩
    · rw [if_neg hp] at h
      by_cases hl : (curF1 g pins).length = 2
      · rw [if_pos hl] at h
        obtain ⟨hg', hr'⟩ := finishRoll_ok _ _ _ _ _ _ _ (by omega) h
        subst hg'; subst hr'
        exact ⟨rfl, rfl, rfl, rfl, Or.inr (Or.inl ⟨h9, hp, hl, rfl, rfl, rfl⟩)⟩
      · rw [if_neg hl] at h
        obtain ⟨hg', hr'⟩ := finishRoll_ok _ _ _ _ _ _ _ (by omega) h
        subst hg'; subst hr'
        exact ⟨rfl, rfl, rfl, rfl, Or.inr (Or.inr (Or.inl ⟨h9, hp, hl, rfl, rfl, rfl⟩))⟩
  · rw [if_neg h9] at h
    have h9' : g.current_frame = 9 := by omega
    by_cases h1 : (tenF g pins).length = 1 ∧ pins = 10
    · rw [if_pos h1] at h
      obtain ⟨hg', hr'⟩ := finishRoll_ok _ _ _ _ _ _ _ (by omega) h
      subst hg'; subst hr'
      exact ⟨rfl, rfl, rfl, rfl,
        Or.inr (Or.inr (Or.inr (Or.inl ⟨h9', h1.1, h1.2, h9', rfl, rfl⟩)))⟩
    · rw [if_neg h1] at h
      by_cases h2 : (tenF g pins).length = 2
      · rw [if_pos h2] at h
        by_cases h3 : (tenF g pins).headD 0 < 10 ∧ (tenF g pins).sum < 10
        · rw [if_pos h3] at h
          obtain ⟨hg', hr'⟩ := finishRoll_ok _ _ _ _ _ _ _ (by omega) h
          subst hg'; subst hr'
          exact ⟨rfl, rfl, rfl, rfl,
            Or.inr (Or.inr (Or.inr (Or.inr (Or.inl
              ⟨h9', h1, h2, h3.1, h3.2, h9', rfl, rfl⟩))))⟩
        · rw [if_neg h3] at h
          obtain ⟨hg', hr'⟩ := finishRoll_ok _ _ _ _ _ _ _ (by omega) h
          subst hg'; subst hr'
          exact ⟨rfl, rfl, rfl, rfl,
            Or.inr (Or.inr (Or.inr (Or.inr (Or.inr (Or.inl
              ⟨h9', h1, h2, h3, h9', rfl, rfl⟩)))))⟩
      · rw [if_neg h2] at h
        by_cases h4 : (tenF g pins).length = 3
        · rw [if_pos h4] at h
          obtain ⟨hg', hr'⟩ := finishRoll_ok _ _ _ _ _ _ _ (by omega) h
          subst hg'; subst hr'
          exact ⟨rfl, rfl, rfl, rfl,
            Or.inr (Or.inr (Or.inr (Or.inr (Or.inr (Or.inr (Or.inl
              ⟨h9', h1, h2, h4, h9', rfl, rfl⟩))))))⟩
        · rw [if_neg h4] at h
          obtain ⟨hg', hr'⟩ := finishRoll_ok _ _ _ _ _ _ _ (by omega) h
          subst hg'; subst hr'
          exact ⟨rfl, rfl, rfl, rfl,
            Or.inr (Or.inr (Or.inr (Or.inr (Or.inr (Or.inr (Or.inr
              ⟨h9', h1, h2, h4, h9', rfl, rfl⟩))))))⟩

theorem getD_set_same {α : Type} (l : List α) (i : Nat) (a d : α) (h : i < l.length) :
    (l.set i a).getD i d = a := by
  simp [List.getD_eq_getElem?_getD, List.getElem?_set, h]

theorem getD_set_other {α : Type} (l : List α) (i j : Nat) (a d : α) (h : i ≠ j) :
    (l.set i a).getD j d = l.getD j d := by
  simp [List.getD_eq_getElem?_getD, List.getElem?_set_ne h]

theorem getD_mem {α : Type} (l : List α) (i : Nat) (d : α) (h : i < l.length) :
    l.getD i d ∈ l := by
  rw [List.getD_eq_getElem l d h]
  exact List.getElem_mem h

theorem getD_replicate_nil (n i : Nat) :
    (List.replicate n ([] : List Int)).getD i [] = [] := by
  rcases Nat.lt_or_ge i n with h | h
  · rw [List.getD_eq_getElem _ _ (by simpa using h)]
    simp
  · exact List.getD_eq_default _ _ (by simpa using h)

theorem inv_init (player_id : Int) (player_name : String) (game_id : Option Int) :
    Inv (initGame player_id player_name game_id) := by
  refine ⟨?_, ?_, ?_, ?_, ?_, ?_, ?_, ?_⟩
  · simp [initGame]
  · simp [initGame]
  · intro i hi; simp [initGame] at hi
  · intro i _
    exact getD_replicate_nil 10 i
  · intro _
    constructor
    · rw [show (initGame player_id player_name game_id).frames = List.replicate 10 [] from rfl,
        getD_replicate_nil]
      simp
    · intro x hx
      rw [show (initGame player_id player_name game_id).frames = List.replicate 10 [] from rfl,
        getD_replicate_nil] at hx
      simp at hx
  · intro f hf
    simp only [initGame] at hf
    have := List.eq_of_mem_replicate hf
    subst this
    intro x hx
    simp at hx
  · intro _ h9; simp [initGame] at h9
  · intro hcontra; simp [initGame] at hcontra

theorem newFrames_length (g : BowlingGame) (pins : Int) :
    (newFrames g pins).length = g.frames.length := List.length_set _ _ _

theorem newFrames_getD_self (g : BowlingGame) (pins : Int)
    (h : g.current_frame < g.frames.length) :
    (newFrames g pins).getD g.current_frame [] = g.frames.getD g.current_frame [] ++ [pins] :=
  getD_set_same _ _ _ _ h

theorem newFrames_getD_other (g : BowlingGame) (pins : Int) (j : Nat)
    (h : g.current_frame ≠ j) :
    (newFrames g pins).getD j [] = g.frames.getD j [] :=
  getD_set_other _ _ _ _ _ h

theorem newFrames_valid (g : BowlingGame) (pins : Int)
    (hv : ∀ f ∈ g.frames, ∀ x ∈ f, 0 ≤ x ∧ x ≤ 10) (h0 : 0 ≤ pins) (h10 : pins ≤ 10) :
    ∀ f ∈ newFrames g pins, ∀ x ∈ f, 0 ≤ x ∧ x ≤ 10 := by
  intro f hf x hx
  rcases List.mem_or_eq_of_mem_set hf with hmem | heq
  · exact hv f hmem x hx
  · subst heq
    rcases List.mem_append.mp hx with hold | hnew
    · rcases Nat.lt_or_ge g.current_frame g.frames.length with hlt | hge
      · exact hv _ (getD_mem _ _ _ hlt) x hold
      · rw [List.getD_eq_default _ _ hge] at hold
        simp at hold
    · simp only [List.mem_singleton] at hnew
      subst hnew
      exact ⟨h0, h10⟩

theorem add_roll_inv (g g' : BowlingGame) (pins : Int) (r : RollResult)
    (hInv : Inv g) (h : g.add_roll pins = Except.ok (g', r)) : Inv g' := by
  obtain ⟨hc, h0, h10, _, _, _, hfr, hcase⟩ := add_roll_ok_spec g g' pins r hInv.cf_le h
  have hflen' : g'.frames.length = 10 := by
    rw [hfr, newFrames_length, hInv.flen]
  have hcf_lt_len : g.current_frame < g.frames.length := by
    rw [hInv.flen]; omega
  have hself := newFrames_getD_self g pins hcf_lt_len
  have hvalid' : ∀ f ∈ g'.frames, ∀ x ∈ f, 0 ≤ x ∧ x ≤ 10 := by
    rw [hfr]; exact newFrames_valid g pins hInv.valid h0 h10
  have hafter' : ∀ i, 9 < i → g'.frames.getD i [] = [] := by
    intro i hi
    exact List.getD_eq_default _ _ (by omega)
  rcases hcase with
    ⟨h9, hp, hcf', hcomp', hr⟩ | ⟨h9, hp, hl, hcf', hcomp', hr⟩ |
    ⟨h9, hp, hl, hcf', hcomp', hr⟩ | ⟨h9, hl, hp, hcf', hcomp', hr⟩ |
    ⟨h9, hns, hl, hhead, hsum, hcf', hcomp', hr⟩ |
    ⟨h9, hns, hl, hno, hcf', hcomp', hr⟩ |
    ⟨h9, hns, hl2, hl3, hcf', hcomp', hr⟩ | ⟨h9, hns, hl2, hl3, hcf', hcomp', hr⟩
  -- case 1: frames 1-9, strike
  · have hcur := hInv.cur h9
    refine ⟨hflen', by omega, ?_, ?_, ?_, hvalid', ?_, ?_⟩
    · intro i hi
      rw [hcf'] at hi
      rcases Nat.lt_or_ge i g.current_frame with hilt | hige
      · rw [hfr, newFrames_getD_other g pins i (by omega)]
        exact hInv.before i hilt
      · have : i = g.current_frame := by omega
        subst this
        rw [hfr, hself]
        rcases hfold : g.frames.getD g.current_frame [] with _ | ⟨a, tl⟩
        · subst hp; exact Or.inl rfl
        · rcases tl with _ | ⟨b, tl2⟩
          · subst hp
            refine Or.inr ⟨rfl, ?_⟩
            have := (hcur.2 a (by rw [hfold]; exact List.mem_cons_self a []))
            simpa using this.2
          · exfalso
            have := hcur.1
            rw [hfold] at this
            simp at this
    · intro i hi
      rw [hcf'] at hi
      rcases Nat.lt_or_ge i 10 with hi10 | hi10
      · rw [hfr, newFrames_getD_other g pins i (by omega)]
        exact hInv.frames_after i (by omega)
      · rw [hfr]
        exact List.getD_eq_default _ _ (by rw [newFrames_length, hInv.flen]; omega)
    · intro hlt9'
      rw [hcf'] at hlt9' ⊢
      rw [hfr, newFrames_getD_other g pins _ (by omega),
        hInv.frames_after _ (by omega)]
      exact ⟨by simp, by intro x hx; simp at hx⟩
    · intro _ h9'
      rw [hcf'] at h9'
      rw [hfr, newFrames_getD_other g pins 9 (by omega),
        hInv.frames_after 9 (by omega)]
      simp
    · intro hcontra
      rw [hcomp'] at hcontra
      exact absurd hcontra (by simp [hc])
  -- case 2: frames 1-9, second roll completes the frame
  · have hcur := hInv.cur h9
    have hnf : curF1 g pins = g.frames.getD g.current_frame [] ++ [pins] := by
      rw [curF1, hself]
    refine ⟨hflen', by omega, ?_, ?_, ?_, hvalid', ?_, ?_⟩
    · intro i hi
      rw [hcf'] at hi
      rcases Nat.lt_or_ge i g.current_frame with hilt | hige
      · rw [hfr, newFrames_getD_other g pins i (by omega)]
        exact hInv.before i hilt
      · have : i = g.current_frame := by omega
        subst this
        rw [hfr, hself]
        rcases hfold : g.frames.getD g.current_frame [] with _ | ⟨a, tl⟩
        · exfalso
          rw [hnf, hfold] at hl
          simp at hl
        · rcases tl with _ | ⟨b, tl2⟩
          · refine Or.inr ⟨by simp, ?_⟩
            have := (hcur.2 a (by rw [hfold]; exact List.mem_cons_self a []))
            simpa using this.2
          · exfalso
            have := hcur.1
            rw [hfold] at this
            simp at this
    · intro i hi
      rw [hcf'] at hi
      rcases Nat.lt_or_ge i 10 with hi10 | hi10
      · rw [hfr, newFrames_getD_other g pins i (by omega)]
        exact hInv.frames_after i (by omega)
      · rw [hfr]
        exact List.getD_eq_default _ _ (by rw [newFrames_length, hInv.flen]; omega)
    · intro hlt9'
      rw [hcf'] at hlt9' ⊢
      rw [hfr, newFrames_getD_other g pins _ (by omega),
        hInv.frames_after _ (by omega)]
      exact ⟨by simp, by intro x hx; simp at hx⟩
    · intro _ h9'
      rw [hcf'] at h9'
      rw [hfr, newFrames_getD_other g pins 9 (by omega),
        hInv.frames_after 9 (by omega)]
      simp
    · intro hcontra
      rw [hcomp'] at hcontra
      exact absurd hcontra (by simp [hc])
  -- case 3: frames 1-9, first roll, frame still open
  · have hcur := hInv.cur h9
    have hnf : curF1 g pins = g.frames.getD g.current_frame [] ++ [pins] := by
      rw [curF1, hself]
    have hfold : g.frames.getD g.current_frame [] = [] := by
      rcases hfold : g.frames.getD g.current_frame [] with _ | ⟨a, tl⟩
      · rfl
      · exfalso
        rcases tl with _ | ⟨b, tl2⟩
        · apply hl
          rw [hnf, hfold]
          simp
        · have := hcur.1
          rw [hfold] at this
          simp at this
    refine ⟨hflen', by omega, ?_, ?_, ?_, hvalid', ?_, ?_⟩
    · intro i hi
      rw [hcf'] at hi
      rw [hfr, newFrames_getD_other g pins i (by omega)]
      exact hInv.before i hi
    · intro i hi
      rw [hcf'] at hi
      rcases Nat.lt_or_ge i 10 with hi10 | hi10
      · rw [hfr, newFrames_getD_other g pins i (by omega)]
        exact hInv.frames_after i hi
      · rw [hfr]
        exact List.getD_eq_default _ _ (by rw [newFrames_length, hInv.flen]; omega)
    · intro _
      rw [hcf', hfr, hself, hfold]
      refine ⟨by simp, ?_⟩
      intro x hx
      simp only [List.nil_append, List.mem_singleton] at hx
      subst hx
      exact ⟨h0, by omega⟩
    · intro _ h9'
      rw [hcf'] at h9'
      omega
    · intro hcontra
      rw [hcomp'] at hcontra
      exact absurd hcontra (by simp [hc])
  -- case 4: frame 10, first roll is a strike
  · have hten : tenF g pins = g.frames.getD 9 [] ++ [pins] := by
      rw [tenF, newFrames, h9]
      exact getD_set_same _ _ _ _ (by rw [hInv.flen]; omega)
    refine ⟨hflen', by omega, ?_, ?_, ?_, hvalid', ?_, ?_⟩
    · intro i hi
      rw [hcf'] at hi
      rw [hfr, newFrames_getD_other g pins i (by omega)]
      exact hInv.before i (by omega)
    · intro i hi
      rw [hcf'] at hi
      rw [hfr]
      exact List.getD_eq_default _ _ (by rw [newFrames_length, hInv.flen]; omega)
    · intro hlt9'
      rw [hcf'] at hlt9'
      omega
    · intro _ _
      rw [hfr, ← tenF]
      omega
    · intro hcontra
      rw [hcomp'] at hcontra
      exact absurd hcontra (by simp [hc])
  -- case 5: frame 10, two rolls, open frame, game complete
  · refine ⟨hflen', by omega, ?_, ?_, ?_, hvalid', ?_, ?_⟩
    · intro i hi
      rw [hcf'] at hi
      rw [hfr, newFrames_getD_other g pins i (by omega)]
      exact hInv.before i (by omega)
    · intro i hi
      rw [hcf'] at hi
      rw [hfr]
      exact List.getD_eq_default _ _ (by rw [newFrames_length, hInv.flen]; omega)
    · intro hlt9'
      rw [hcf'] at hlt9'
      omega
    · intro hcontra
      rw [hcomp'] at hcontra
      simp at hcontra
    · intro _
      refine ⟨hcf', ?_⟩
      rw [hfr, ← tenF]
      exact Or.inr ⟨hl, hhead, hsum⟩
  -- case 6: frame 10, two rolls, bonus earned, game continues
  · refine ⟨hflen', by omega, ?_, ?_, ?_, hvalid', ?_, ?_⟩
    · intro i hi
      rw [hcf'] at hi
      rw [hfr, newFrames_getD_other g pins i (by omega)]
      exact hInv.before i (by omega)
    · intro i hi
      rw [hcf'] at hi
      rw [hfr]
      exact List.getD_eq_default _ _ (by rw [newFrames_length, hInv.flen]; omega)
    · intro hlt9'
      rw [hcf'] at hlt9'
      omega
    · intro _ _
      rw [hfr, ← tenF]
      omega
    · intro hcontra
      rw [hcomp'] at hcontra
      exact absurd hcontra (by simp [hc])
  -- case 7: frame 10, third roll, game complete
  · refine ⟨hflen', by omega, ?_, ?_, ?_, hvalid', ?_, ?_⟩
    · intro i hi
      rw [hcf'] at hi
      rw [hfr, newFrames_getD_other g pins i (by omega)]
      exact hInv.before i (by omega)
    · intro i hi
      rw [hcf'] at hi
      rw [hfr]
      exact List.getD_eq_default _ _ (by rw [newFrames_length, hInv.flen]; omega)
    · intro hlt9'
      rw [hcf'] at hlt9'
      omega
    · intro hcontra
      rw [hcomp'] at hcontra
      simp at hcontra
    · intro _
      refine ⟨hcf', ?_⟩
      rw [hfr, ← tenF]
      exact Or.inl hl3
  -- case 8: frame 10, no branch taken
  · have hten : tenF g pins = g.frames.getD 9 [] ++ [pins] := by
      rw [tenF, newFrames, h9]
      exact getD_set_same _ _ _ _ (by rw [hInv.flen]; omega)
    have hold9 : (g.frames.getD 9 []).length ≤ 2 := hInv.open9 hc h9
    have htlen : (tenF g pins).length = (g.frames.getD 9 []).length + 1 := by
      rw [hten]; simp
    refine ⟨hflen', by omega, ?_, ?_, ?_, hvalid', ?_, ?_⟩
    · intro i hi
      rw [hcf'] at hi
      rw [hfr, newFrames_getD_other g pins i (by omega)]
      exact hInv.before i (by omega)
    · intro i hi
      rw [hcf'] at hi
      rw [hfr]
      exact List.getD_eq_default _ _ (by rw [newFrames_length, hInv.flen]; omega)
    · intro hlt9'
      rw [hcf'] at hlt9'
      omega
    · intro _ _
      rw [hfr, ← tenF]
      omega
    · intro hcontra
      rw [hcomp'] at hcontra
      exact absurd hcontra (by simp [hc])

/-- Every reachable state satisfies the invariant. -/
theorem reach_inv (g : BowlingGame) (h : Reachable g) : Inv g := by
  induction h with
  | init player_id player_name game_id => exact inv_init player_id player_name game_id
  | step g g' pins r _ hok ih => exact add_roll_inv g g' pins r ih hok

theorem addFromFrame_spec (rs : List Int) : ∀ acc n, acc.length < n →
    addFromFrame acc n rs = acc ++ rs.take (n - acc.length) := by
  induction rs with
  | nil => intro acc n _; simp [addFromFrame]
  | cons r rs ih =>
    intro acc n hlt
    unfold addFromFrame
    by_cases hn : n ≤ (acc ++ [r]).length
    · rw [if_pos hn]
      have : n - acc.length = 1 := by simp at hn; omega
      rw [this]
      simp
    · rw [if_neg hn]
      rw [ih (acc ++ [r]) n (by simp at hn ⊢; omega)]
      have : n - acc.length = (n - (acc ++ [r]).length) + 1 := by simp at hn ⊢; omega
      rw [this]
      simp [List.take_succ_cons]

theorem nextRollsLoop_stop (g : BowlingGame) (n : Nat) (fuel idx : Nat) (acc : List Int)
    (h : n ≤ acc.length) : nextRollsLoop g n fuel idx acc = acc := by
  cases fuel with
  | zero => rfl
  | succ fuel => rw [nextRollsLoop, if_neg (by omega)]

theorem nextRollsLoop_spec (g : BowlingGame) (n : Nat) : ∀ fuel idx acc,
    acc.length < n →
    nextRollsLoop g n fuel idx acc = acc ++ (framesFrom g idx fuel).take (n - acc.length) := by
  intro fuel
  induction fuel with
  | zero => intro idx acc h; simp [nextRollsLoop, framesFrom]
  | succ fuel ih =>
    intro idx acc h
    rw [nextRollsLoop, if_pos h, addFromFrame_spec _ _ _ h]
    by_cases hfull : n ≤ (acc ++ (g.frames.getD idx []).take (n - acc.length)).length
    · rw [nextRollsLoop_stop _ _ _ _ _ hfull]
      rw [framesFrom]
      have hlen : (g.frames.getD idx []).length ≥ n - acc.length := by
        simp only [List.length_append, List.length_take] at hfull ⊢
        omega
      rw [List.take_append_eq_append_take]
      have h2 : n - acc.length - (g.frames.getD idx []).length = 0 := by omega
      rw [h2]
      simp
    · rw [ih _ _ (by simp only [List.length_append, List.length_take] at hfull ⊢; omega)]
      rw [framesFrom, List.take_append_eq_append_take]
      have hlen : (g.frames.getD idx []).length < n - acc.length := by
        simp only [List.length_append, List.length_take] at hfull
        omega
      have h1 : (g.frames.getD idx []).take (n - acc.length) = g.frames.getD idx [] := by
        apply List.take_of_length_le; omega
      rw [h1]
      simp only [List.append_assoc, List.length_append]
      have h2 : n - (acc.length + (g.frames.getD idx []).length) =
          n - acc.length - (g.frames.getD idx []).length := by omega
      rw [← h2]

theorem framesFrom_eq (g : BowlingGame) : ∀ fuel idx,
    framesFrom g idx fuel = ((g.frames.drop idx).take fuel).flatten := by
  intro fuel
  induction fuel with
  | zero => intro idx; simp [framesFrom]
  | succ fuel ih =>
    intro idx
    rw [framesFrom, ih (idx + 1)]
    rcases Nat.lt_or_ge idx g.frames.length with hlt | hge
    · rw [List.drop_eq_getElem_cons hlt, List.take_succ_cons, List.flatten_cons,
        List.getD_eq_getElem _ _ hlt]
    · rw [List.getD_eq_default _ _ hge, List.drop_eq_nil_of_le hge,
        List.drop_eq_nil_of_le (by omega)]
      simp

/-- On a well-formed state, `_get_next_n_rolls` returns exactly the first `n`
rolls of the subsequent frames, gathered in frame order. -/
theorem get_next_n_rolls_eq (g : BowlingGame) (hlen : g.frames.length = 10) (i n : Nat) :
    g.get_next_n_rolls i n = ((g.frames.drop (i + 1)).flatten).take n := by
  unfold BowlingGame.get_next_n_rolls
  rcases Nat.eq_zero_or_pos n with hn | hn
  · subst hn
    rw [nextRollsLoop_stop _ _ _ _ _ (by simp)]
    simp
  · rw [nextRollsLoop_spec _ _ _ _ _ (by simpa using hn), framesFrom_eq]
    have hfull : (g.frames.drop (i + 1)).take (10 - (i + 1)) = g.frames.drop (i + 1) := by
      apply List.take_of_length_le
      rw [List.length_drop, hlen]
    rw [hfull]
    simp

theorem headD_mem {α : Type} (l : List α) (d : α) (h : l ≠ []) : l.headD d ∈ l := by
  cases l with
  | nil => simp at h
  | cons a t => simp

theorem score_empty (g : BowlingGame) (i : Nat) (h : g.frames.getD i [] = []) :
    g.calculate_frame_score i = none := by
  simp only [BowlingGame.calculate_frame_score]
  rw [if_pos h]

theorem score_tenth (g : BowlingGame) (h : g.frames.getD 9 [] ≠ []) :
    g.calculate_frame_score 9 = some (g.frames.getD 9 []).sum := by
  simp only [BowlingGame.calculate_frame_score]
  rw [if_neg h]
  simp

theorem score_strike (g : BowlingGame) (i : Nat) (hlen : g.frames.length = 10) (hi : i < 9)
    (hne : g.frames.getD i [] ≠ []) (hhead : (g.frames.getD i []).headD 0 = 10) :
    g.calculate_frame_score i =
      if (rollsAfter g i).length < 2 then none
      else some (10 + ((rollsAfter g i).take 2).sum) := by
  simp only [BowlingGame.calculate_frame_score]
  rw [if_neg hne, if_neg (show ¬i = 9 by omega), if_pos hhead, get_next_n_rolls_eq g hlen]
  by_cases hl : (rollsAfter g i).length < 2
  · rw [rollsAfter] at hl
    rw [if_pos (show (List.take 2 (g.frames.drop (i + 1)).flatten).length < 2 by
      simp only [List.length_take]; omega)]
    rw [rollsAfter, if_pos hl]
  · rw [rollsAfter] at hl
    rw [if_neg (show ¬(List.take 2 (g.frames.drop (i + 1)).flatten).length < 2 by
      simp only [List.length_take]; omega)]
    rw [rollsAfter, if_neg hl]

theorem take_one_headD (l : List Int) : (l.take 1).headD 0 = l.headD 0 := by
  cases l <;> simp

theorem score_spare (g : BowlingGame) (i : Nat) (hlen : g.frames.length = 10) (hi : i < 9)
    (hhead : (g.frames.getD i []).headD 0 ≠ 10) (hl2 : (g.frames.getD i []).length = 2)
    (hsum : (g.frames.getD i []).sum = 10) :
    g.calculate_frame_score i =
      if rollsAfter g i = [] then none
      else some (10 + (rollsAfter g i).headD 0) := by
  have hne : g.frames.getD i [] ≠ [] := by
    intro hcon; rw [hcon] at hl2; simp at hl2
  simp only [BowlingGame.calculate_frame_score]
  rw [if_neg hne, if_neg (show ¬i = 9 by omega), if_neg hhead,
    if_pos (And.intro hl2 hsum), get_next_n_rolls_eq g hlen]
  by_cases hl : rollsAfter g i = []
  · rw [rollsAfter] at hl
    rw [if_pos (show (List.take 1 (g.frames.drop (i + 1)).flatten).length < 1 by
      rw [hl]; simp)]
    rw [rollsAfter, if_pos hl]
  · rw [rollsAfter] at hl
    have hlp : 0 < (g.frames.drop (i + 1)).flatten.length := List.length_pos.mpr hl
    rw [if_neg (show ¬(List.take 1 (g.frames.drop (i + 1)).flatten).length < 1 by
      simp only [List.length_take]; omega)]
    rw [rollsAfter, if_neg hl, take_one_headD]

theorem score_open (g : BowlingGame) (i : Nat) (hi : i < 9)
    (hhead : (g.frames.getD i []).headD 0 ≠ 10) (hl2 : (g.frames.getD i []).length = 2)
    (hsum : (g.frames.getD i []).sum ≠ 10) :
    g.calculate_frame_score i = some (g.frames.getD i []).sum := by
  have hne : g.frames.getD i [] ≠ [] := by
    intro hcon; rw [hcon] at hl2; simp at hl2
  simp only [BowlingGame.calculate_frame_score]
  rw [if_neg hne, if_neg (show ¬i = 9 by omega), if_neg hhead,
    if_neg (show ¬((g.frames.getD i []).length = 2 ∧ (g.frames.getD i []).sum = 10) by
      intro hcon; exact hsum hcon.2),
    if_pos hl2]

theorem score_unfinished (g : BowlingGame) (i : Nat) (hi : i < 9)
    (hhead : (g.frames.getD i []).headD 0 ≠ 10) (hl2 : (g.frames.getD i []).length ≠ 2)
    (hne : g.frames.getD i [] ≠ []) :
    g.calculate_frame_score i = none := by
  simp only [BowlingGame.calculate_frame_score]
  rw [if_neg hne, if_neg (show ¬i = 9 by omega), if_neg hhead,
    if_neg (show ¬((g.frames.getD i []).length = 2 ∧ (g.frames.getD i []).sum = 10) by
      intro hcon; exact hl2 hcon.1),
    if_neg hl2]

theorem rollsAfter_ge_f9 (g : BowlingGame) (hlen : g.frames.length = 10) (i : Nat)
    (hi : i < 9) : (g.frames.getD 9 []).length ≤ (rollsAfter g i).length := by
  have h9 : 9 < g.frames.length := by omega
  have hmem : g.frames.getD 9 [] ∈ g.frames.drop (i + 1) := by
    have hj : 9 - (i + 1) < (g.frames.drop (i + 1)).length := by
      rw [List.length_drop]; omega
    have hmem0 := List.getElem_mem hj
    rw [List.getElem_drop] at hmem0
    have hix : i + 1 + (9 - (i + 1)) = 9 := by omega
    simp only [hix] at hmem0
    rw [List.getD_eq_getElem _ _ h9]
    exact hmem0
  rw [rollsAfter, List.length_flatten]
  exact List.single_le_sum (fun x _ => Nat.zero_le x) _
    (List.mem_map_of_mem List.length hmem)

theorem rollsAfter_valid (g : BowlingGame)
    (hv : ∀ f ∈ g.frames, ∀ x ∈ f, 0 ≤ x ∧ x ≤ 10) (i : Nat) :
    ∀ x ∈ rollsAfter g i, 0 ≤ x := by
  intro x hx
  rw [rollsAfter, List.mem_flatten] at hx
  obtain ⟨l, hl, hxl⟩ := hx
  exact (hv l (List.mem_of_mem_drop hl) x hxl).1

theorem score_of_complete (g : BowlingGame) (hInv : Inv g) (hc : g.is_complete = true) :
    ∀ i, i < 10 → ∃ s, g.calculate_frame_score i = some s ∧ 0 ≤ s := by
  obtain ⟨hcf9, hf9⟩ := hInv.done hc
  intro i hi
  by_cases hi9 : i = 9
  · subst hi9
    have hne : g.frames.getD 9 [] ≠ [] := by
      intro hcon
      rw [hcon] at hf9
      simp at hf9
    refine ⟨(g.frames.getD 9 []).sum, score_tenth g hne, ?_⟩
    exact List.sum_nonneg (fun x hx =>
      (hInv.valid _ (getD_mem _ _ _ (by rw [hInv.flen]; omega)) x hx).1)
  · have hilt : i < 9 := by omega
    have hcomp := hInv.before i (by omega)
    have hf9len : 2 ≤ (g.frames.getD 9 []).length := by
      rcases hf9 with h | ⟨h, _⟩ <;> omega
    have hra : 2 ≤ (rollsAfter g i).length :=
      le_trans hf9len (rollsAfter_ge_f9 g hInv.flen i hilt)
    have hrane : rollsAfter g i ≠ [] := by
      intro hcon; rw [hcon] at hra; simp at hra
    rcases hcomp with hstrike | ⟨hlen2, hheadlt⟩
    · have hne : g.frames.getD i [] ≠ [] := by rw [hstrike]; simp
      have hhead : (g.frames.getD i []).headD 0 = 10 := by rw [hstrike]; rfl
      refine ⟨10 + ((rollsAfter g i).take 2).sum, ?_, ?_⟩
      · rw [score_strike g i hInv.flen hilt hne hhead, if_neg (by omega)]
      · have h0 : (0 : Int) ≤ ((rollsAfter g i).take 2).sum :=
          List.sum_nonneg (fun x hx =>
            rollsAfter_valid g hInv.valid i x (List.mem_of_mem_take hx))
        omega
    · have hheadne : (g.frames.getD i []).headD 0 ≠ 10 := by omega
      by_cases hsum : (g.frames.getD i []).sum = 10
      · refine ⟨10 + (rollsAfter g i).headD 0, ?_, ?_⟩
        · rw [score_spare g i hInv.flen hilt hheadne hlen2 hsum, if_neg hrane]
        · have h0 : (0 : Int) ≤ (rollsAfter g i).headD 0 :=
            rollsAfter_valid g hInv.valid i _ (headD_mem _ _ hrane)
          omega
      · refine ⟨(g.frames.getD i []).sum, score_open g i hilt hheadne hlen2 hsum, ?_⟩
        exact List.sum_nonneg (fun x hx =>
          (hInv.valid _ (getD_mem _ _ _ (by rw [hInv.flen]; omega)) x hx).1)

theorem totalFrom_some (g : BowlingGame) : ∀ fuel i total any_scored, 0 < fuel →
    (∀ j, j < fuel → ∃ s, g.calculate_frame_score (i + j) = some s ∧ 0 ≤ s) →
    ∃ t, totalFrom g fuel i total any_scored = some t ∧ total ≤ t := by
  intro fuel
  induction fuel with
  | zero => intro i total any_scored h; omega
  | succ fuel ih =>
    intro i total any_scored _ hsc
    obtain ⟨s, hs, hs0⟩ := hsc 0 (by omega)
    rw [Nat.add_zero] at hs
    cases fuel with
    | zero =>
      simp only [totalFrom, hs]
      exact ⟨total + s, rfl, by omega⟩
    | succ fuel' =>
      simp only [totalFrom, hs]
      obtain ⟨t, ht, htle⟩ := ih (i + 1) (total + s) true (by omega) (fun j hj => by
        obtain ⟨u, hu, hu0⟩ := hsc (j + 1) (by omega)
        rw [show i + (j + 1) = i + 1 + j by omega] at hu
        exact ⟨u, hu, hu0⟩)
      exact ⟨t, ht, by omega⟩

theorem total_of_complete (g : BowlingGame) (hInv : Inv g) (hc : g.is_complete = true) :
    ∃ t, g.get_total_score = some t ∧ 0 ≤ t := by
  obtain ⟨t, ht, h0⟩ := totalFrom_some g 10 0 0 false (by omega)
    (fun j hj => by simpa using score_of_complete g hInv hc j (by omega))
  exact ⟨t, ht, h0⟩

theorem getD_replicate_none (n k : Nat) :
    (List.replicate n (none : Option Int)).getD k none = none := by
  rcases Nat.lt_or_ge k n with h | h
  · rw [List.getD_eq_getElem _ _ (by simpa using h)]
    simp
  · exact List.getD_eq_default _ _ (by simpa using h)

theorem cum_length (g : BowlingGame) : ∀ fuel i run,
    (cumulativeFrom g fuel i run).length = fuel := by
  intro fuel
  induction fuel with
  | zero => intro i run; rfl
  | succ fuel ih =>
    intro i run
    rw [cumulativeFrom]
    cases hsc : g.calculate_frame_score i with
    | none => simp
    | some s => simp [ih]

theorem cum_getD (g : BowlingGame) : ∀ fuel i run k, k < fuel →
    (cumulativeFrom g fuel i run).getD k none =
      (sumScoresFrom g i k).map (fun s => run + s) := by
  intro fuel
  induction fuel with
  | zero => intro i run k hk; omega
  | succ fuel ih =>
    intro i run k hk
    rw [cumulativeFrom]
    cases hsc : g.calculate_frame_score i with
    | none =>
      rw [getD_replicate_none]
      cases k with
      | zero => rw [sumScoresFrom, hsc]; rfl
      | succ k' => rw [sumScoresFrom, hsc]; rfl
    | some s =>
      cases k with
      | zero =>
        rw [sumScoresFrom, hsc]
        rfl
      | succ k' =>
        rw [List.getD_cons_succ, ih (i + 1) (run + s) k' (by omega),
          sumScoresFrom, hsc]
        cases hS : sumScoresFrom g (i + 1) k' with
        | none => rfl
        | some c => simp [Int.add_assoc]

theorem sumScoresFrom_nonneg (g : BowlingGame)
    (hnn : ∀ i s, g.calculate_frame_score i = some s → 0 ≤ s) :
    ∀ k i b, sumScoresFrom g i k = some b → 0 ≤ b := by
  intro k
  induction k with
  | zero => intro i b hb; exact hnn i b hb
  | succ k ih =>
    intro i b hb
    rw [sumScoresFrom] at hb
    cases hsc : g.calculate_frame_score i with
    | none => rw [hsc] at hb; simp at hb
    | some a =>
      rw [hsc] at hb
      cases hS : sumScoresFrom g (i + 1) k with
      | none => rw [hS] at hb; simp at hb
      | some c =>
        rw [hS] at hb
        simp only [Option.some.injEq] at hb
        have h1 := hnn i a hsc
        have h2 := ih (i + 1) c hS
        omega

theorem sumScoresFrom_mono (g : BowlingGame)
    (hnn : ∀ i s, g.calculate_frame_score i = some s → 0 ≤ s) :
    ∀ k j i b, j ≤ k → sumScoresFrom g i k = some b →
      ∃ a, sumScoresFrom g i j = some a ∧ a ≤ b := by
  intro k
  induction k with
  | zero =>
    intro j i b hj hb
    have : j = 0 := by omega
    subst this
    exact ⟨b, hb, le_refl b⟩
  | succ k ih =>
    intro j i b hj hb
    rw [sumScoresFrom] at hb
    cases hsc : g.calculate_frame_score i with
    | none => rw [hsc] at hb; simp at hb
    | some a =>
      rw [hsc] at hb
      cases hS : sumScoresFrom g (i + 1) k with
      | none => rw [hS] at hb; simp at hb
      | some c =>
        rw [hS] at hb
        simp only [Option.some.injEq] at hb
        cases j with
        | zero =>
          refine ⟨a, by rw [sumScoresFrom]; exact hsc, ?_⟩
          have h2 := sumScoresFrom_nonneg g hnn k (i + 1) c hS
          omega
        | succ j' =>
          obtain ⟨a', ha', hle⟩ := ih j' (i + 1) c (by omega) hS
          refine ⟨a + a', ?_, by omega⟩
          rw [sumScoresFrom, hsc, ha']

theorem sumScoresFrom_none_mono (g : BowlingGame) :
    ∀ k j i, j ≤ k → sumScoresFrom g i j = none → sumScoresFrom g i k = none := by
  intro k
  induction k with
  | zero =>
    intro j i hj hnone
    have : j = 0 := by omega
    subst this
    exact hnone
  | succ k ih =>
    intro j i hj hnone
    rw [sumScoresFrom]
    cases j with
    | zero =>
      rw [sumScoresFrom] at hnone
      rw [hnone]
    | succ j' =>
      rw [sumScoresFrom] at hnone
      cases hsc : g.calculate_frame_score i with
      | none => rfl
      | some a =>
        rw [hsc] at hnone
        cases hS : sumScoresFrom g (i + 1) j' with
        | some c => rw [hS] at hnone; simp at hnone
        | none =>
          rw [ih j' (i + 1) (by omega) hS]

theorem headD_nonneg (l : List Int) (h : ∀ x ∈ l, 0 ≤ x) : 0 ≤ l.headD 0 := by
  cases l with
  | nil => simp
  | cons a t =>
    rw [List.headD_cons]
    exact h a (List.mem_cons_self a t)

theorem sum_eq_headD_of_len_one (l : List Int) (h : l.length = 1) : l.sum = l.headD 0 := by
  cases l with
  | nil => simp at h
  | cons a t =>
    cases t with
    | nil => simp
    | cons b t' => simp at h

/-- Any frame score the engine reports is nonnegative (on invariant states). -/
theorem score_nonneg (g : BowlingGame) (hInv : Inv g) (i : Nat) (s : Int)
    (h : g.calculate_frame_score i = some s) : 0 ≤ s := by
  rcases Nat.lt_or_ge i g.frames.length with hilt | hige
  · have hval : ∀ x ∈ g.frames.getD i [], 0 ≤ x ∧ x ≤ 10 :=
      fun x hx => hInv.valid _ (getD_mem _ _ _ hilt) x hx
    have hframe_sum : (0 : Int) ≤ (g.frames.getD i []).sum :=
      List.sum_nonneg (fun x hx => (hval x hx).1)
    have hnext2 : (0 : Int) ≤ (g.get_next_n_rolls i 2).sum := by
      rw [get_next_n_rolls_eq g hInv.flen]
      exact List.sum_nonneg (fun x hx =>
        rollsAfter_valid g hInv.valid i x (List.mem_of_mem_take hx))
    have hnext1 : (0 : Int) ≤ (g.get_next_n_rolls i 1).headD 0 := by
      rw [get_next_n_rolls_eq g hInv.flen]
      apply headD_nonneg
      intro x hx
      exact rollsAfter_valid g hInv.valid i x (List.mem_of_mem_take hx)
    simp only [BowlingGame.calculate_frame_score] at h
    repeat' split at h
    all_goals first
    | exact Option.noConfusion h
    | (simp only [Option.some.injEq] at h; omega)
  · have hempty : g.frames.getD i [] = [] := List.getD_eq_default _ _ hige
    rw [score_empty g i hempty] at h
    exact absurd h (by simp)

theorem get_next_n_rolls_length_le (g : BowlingGame) (i n : Nat) :
    (g.get_next_n_rolls i n).length ≤ n := by
  unfold BowlingGame.get_next_n_rolls
  rcases Nat.eq_zero_or_pos n with h0 | hpos
  · subst h0
    rw [nextRollsLoop_stop _ _ _ _ _ (by simp)]
    simp
  · rw [nextRollsLoop_spec _ _ _ _ _ (by simpa using hpos)]
    simp only [List.nil_append, List.length_take, Nat.sub_zero]
    omega

theorem provisional_eq_score (g : BowlingGame) (i : Nat) (s : Int)
    (h : g.calculate_frame_score i = some s) : g.get_provisional_frame_score i = s := by
  by_cases hne : g.frames.getD i [] = []
  · rw [score_empty g i hne] at h
    exact absurd h (by simp)
  by_cases h9 : i = 9
  · subst h9
    rw [score_tenth g hne] at h
    simp only [Option.some.injEq] at h
    simp only [BowlingGame.get_provisional_frame_score, eq_self_iff_true, if_true]
    exact h
  by_cases hstrike : (g.frames.getD i []).headD 0 = 10
  · simp only [BowlingGame.calculate_frame_score] at h
    rw [if_neg hne, if_neg h9, if_pos hstrike] at h
    simp only [BowlingGame.get_provisional_frame_score]
    rw [if_neg h9, if_pos hstrike]
    split at h
    · exact absurd h (by simp)
    · simp only [Option.some.injEq] at h
      omega
  by_cases hspare : (g.frames.getD i []).length = 2 ∧ (g.frames.getD i []).sum = 10
  · simp only [BowlingGame.calculate_frame_score] at h
    rw [if_neg hne, if_neg h9, if_neg hstrike, if_pos hspare] at h
    simp only [BowlingGame.get_provisional_frame_score]
    rw [if_neg h9, if_neg hstrike, if_pos hspare]
    split at h
    · exact absurd h (by simp)
    · rename_i hlen1
      simp only [Option.some.injEq] at h
      have h1 : (g.get_next_n_rolls i 1).length = 1 := by
        have := get_next_n_rolls_length_le g i 1
        omega
      rw [sum_eq_headD_of_len_one _ h1]
      omega
  · simp only [BowlingGame.calculate_frame_score] at h
    rw [if_neg hne, if_neg h9, if_neg hstrike, if_neg hspare] at h
    simp only [BowlingGame.get_provisional_frame_score]
    rw [if_neg h9, if_neg hstrike, if_neg hspare]
    split at h
    · simp only [Option.some.injEq] at h
      omega
    · exact absurd h (by simp)

theorem skipComplete_lt (players : List BowlingGame) :
    ∀ fuel idx, idx < players.length → skipComplete players fuel idx < players.length := by
  intro fuel
  induction fuel with
  | zero => intro idx h; exact h
  | succ fuel ih =>
    intro idx h
    rw [skipComplete]
    split
    · exact h
    · exact ih _ (Nat.mod_lt _ (by omega))

theorem skipComplete_spec (players : List BowlingGame) :
    ∀ fuel idx, idx < players.length →
    (∃ k, k < fuel ∧
      (players.getD ((idx + k) % players.length) defaultGame).is_complete = false) →
    (players.getD (skipComplete players fuel idx) defaultGame).is_complete = false := by
  intro fuel
  induction fuel with
  | zero =>
    intro idx _ hex
    obtain ⟨k, hk, _⟩ := hex
    omega
  | succ fuel ih =>
    intro idx hidx hex
    obtain ⟨k, hk, hkc⟩ := hex
    rw [skipComplete]
    by_cases hc : (players.getD idx defaultGame).is_complete = false
    · rw [if_pos hc]; exact hc
    · rw [if_neg hc]
      have hlen0 : 0 < players.length := by omega
      have hk0 : k ≠ 0 := by
        intro h0
        subst h0
        rw [Nat.add_zero, Nat.mod_eq_of_lt hidx] at hkc
        exact hc hkc
      obtain ⟨k', rfl⟩ : ∃ k', k = k' + 1 := ⟨k - 1, by omega⟩
      apply ih ((idx + 1) % players.length) (Nat.mod_lt _ hlen0)
      refine ⟨k', by omega, ?_⟩
      have hmod : ((idx + 1) % players.length + k') % players.length =
          (idx + (k' + 1)) % players.length := by
        rw [Nat.mod_add_mod]
        congr 1
        omega
      rw [hmod]
      exact hkc

theorem exists_scan_hit (players : List BowlingGame) (idx j : Nat)
    (hidx : idx < players.length) (hj : j < players.length)
    (hjc : (players.getD j defaultGame).is_complete = false) :
    ∃ k, k < players.length ∧
      (players.getD ((idx + k) % players.length) defaultGame).is_complete = false := by
  have hlen0 : 0 < players.length := by omega
  refine ⟨(players.length + j - idx) % players.length, Nat.mod_lt _ hlen0, ?_⟩
  have heq : (idx + (players.length + j - idx) % players.length) % players.length = j := by
    rw [Nat.add_mod_mod]
    have h1 : idx + (players.length + j - idx) = players.length + j := by omega
    rw [h1, Nat.add_mod_left, Nat.mod_eq_of_lt hj]
  rw [heq]
  exact hjc

theorem record_roll_ok_spec (m m' : GameManager) (pins : Int) (r : MatchRollResult)
    (h : m.record_roll pins = Except.ok (m', r)) :
    m.players ≠ [] ∧
    ∃ p' r0,
      (m.players.getD m.current_player_index defaultGame).add_roll pins =
        Except.ok (p', r0) ∧
      m'.players = m.players.set m.current_player_index p' ∧
      r = ⟨r0.is_strike, r0.is_spare, r0.frame_complete, r0.game_complete,
        (m.players.getD m.current_player_index defaultGame).player_name,
        m'.players.all (fun p => p.is_complete)⟩ ∧
      ((r0.frame_complete = true ∧
          m' = GameManager.advance_to_next_player
            ⟨m.players.set m.current_player_index p', m.current_player_index⟩) ∨
       (r0.frame_complete = false ∧
          m' = ⟨m.players.set m.current_player_index p', m.current_player_index⟩)) := by
  by_cases hne : m.players = []
  · rw [GameManager.record_roll.eq_def] at h
    rw [show m.get_current_player = none by
      rw [GameManager.get_current_player, if_pos hne]] at h
    dsimp only at h
    exact absurd h (by simp)
  · rw [GameManager.record_roll.eq_def] at h
    rw [show m.get_current_player =
        some (m.players.getD m.current_player_index defaultGame) by
      rw [GameManager.get_current_player, if_neg hne]] at h
    dsimp only at h
    cases hadd : (m.players.getD m.current_player_index defaultGame).add_roll pins with
    | error e =>
      rw [hadd] at h
      dsimp only at h
      exact absurd h (by simp)
    | ok pr =>
      obtain ⟨p', r0⟩ := pr
      rw [hadd] at h
      dsimp only at h
      refine ⟨hne, p', r0, rfl, ?_⟩
      cases hfc : r0.frame_complete with
      | true =>
        rw [if_pos (by rw [hfc])] at h
        simp only [Except.ok.injEq, Prod.mk.injEq] at h
        obtain ⟨hm2, hr⟩ := h
        subst hm2
        refine ⟨?_, ?_, Or.inl ⟨rfl, rfl⟩⟩
        · rw [GameManager.advance_to_next_player]
        · rw [← hr, hfc]
      | false =>
        rw [if_neg (by rw [hfc]; simp)] at h
        simp only [Except.ok.injEq, Prod.mk.injEq] at h
        obtain ⟨hm2, hr⟩ := h
        subst hm2
        exact ⟨rfl, by rw [← hr, hfc], Or.inr ⟨rfl, rfl⟩⟩

/-- A roll that does not complete a frame never completes the game. -/
theorem add_roll_not_complete (g g' : BowlingGame) (pins : Int) (r : RollResult)
    (hcf : g.current_frame ≤ 9) (h : g.add_roll pins = Except.ok (g', r))
    (hfc : r.frame_complete = false) : g'.is_complete = false := by
  obtain ⟨hc, h0, h10, _, _, _, hfr, hcase⟩ := add_roll_ok_spec g g' pins r hcf h
  rcases hcase with
    ⟨_, _, _, hcomp', hr⟩ | ⟨_, _, _, _, hcomp', hr⟩ |
    ⟨_, _, _, _, hcomp', hr⟩ | ⟨_, _, _, _, hcomp', hr⟩ |
    ⟨_, _, _, _, _, _, hcomp', hr⟩ | ⟨_, _, _, _, _, hcomp', hr⟩ |
    ⟨_, _, _, _, _, hcomp', hr⟩ | ⟨_, _, _, _, _, hcomp', hr⟩
  all_goals first
  | exact hcomp'
  | (exfalso; rw [hr] at hfc; exact Bool.noConfusion hfc)

theorem reachM_inv (m : GameManager) (h : ReachableM m) : InvM m := by
  induction h with
  | init =>
    exact ⟨fun hne => absurd rfl hne, fun _ => rfl,
      fun p hp => absurd hp (by simp [initManager])⟩
  | add m player_id player_name game_id _ ih =>
    refine ⟨?_, ?_, ?_⟩
    · intro _
      simp only [GameManager.add_player, List.length_append, List.length_cons,
        List.length_nil]
      by_cases hne : m.players = []
      · rw [ih.cursor_zero hne]
        omega
      · have := ih.cursor_lt hne
        omega
    · intro hcon
      simp only [GameManager.add_player] at hcon
      exact absurd hcon (by simp)
    · intro p hp
      simp only [GameManager.add_player] at hp
      rcases List.mem_append.mp hp with hold | hnew
      · exact ih.players_reach p hold
      · simp only [List.mem_singleton] at hnew
        subst hnew
        exact Reachable.init player_id player_name game_id
  | roll m m' pins r _ hok ih =>
    obtain ⟨hne, p', r0, hadd, hpl, hr, hbr⟩ := record_roll_ok_spec m m' pins r hok
    have hclen : m.current_player_index < m.players.length := ih.cursor_lt hne
    have hlen' : m'.players.length = m.players.length := by
      rw [hpl, List.length_set]
    have hne' : m'.players ≠ [] := by
      intro hcon
      have hlz := congrArg List.length hcon
      rw [hlen'] at hlz
      simp only [List.length_nil] at hlz
      exact hne (List.length_eq_zero.mp hlz)
    refine ⟨?_, fun hcon => absurd hcon hne', ?_⟩
    · intro _
      have hpos : 0 < (m.players.set m.current_player_index p').length := by
        rw [List.length_set]
        omega
      rcases hbr with ⟨_, hm'⟩ | ⟨_, hm'⟩
      · rw [hm', GameManager.advance_to_next_player]
        dsimp only
        exact skipComplete_lt _ _ _ (Nat.mod_lt _ hpos)
      · rw [hm']
        dsimp only
        rw [List.length_set]
        exact hclen
    · intro p hp
      rw [hpl] at hp
      rcases List.mem_or_eq_of_mem_set hp with hold | hpnew
      · exact ih.players_reach p hold
      · rw [hpnew]
        exact Reachable.step _ p' pins r0
          (ih.players_reach _ (getD_mem _ _ _ hclen)) hadd

/-- Core of the turn-rotation invariant: after a successful `record_roll`
on a reachable match, if any player still has work, the cursor points at a
non-complete player. -/
theorem record_roll_cursor_active (m m' : GameManager) (pins : Int) (r : MatchRollResult)
    (hR : ReachableM m) (hok : m.record_roll pins = Except.ok (m', r))
    (hsome : ∃ p ∈ m'.players, p.is_complete = false) :
    m'.current_player_index < m'.players.length ∧
    (m'.players.getD m'.current_player_index defaultGame).is_complete = false := by
  have ih := reachM_inv m hR
  obtain ⟨hne, p', r0, hadd, hpl, hr, hbr⟩ := record_roll_ok_spec m m' pins r hok
  have hclen : m.current_player_index < m.players.length := ih.cursor_lt hne
  have hlen' : m'.players.length = m.players.length := by rw [hpl, List.length_set]
  have ihm' := reachM_inv m' (ReachableM.roll m m' pins r hR hok)
  have hne' : m'.players ≠ [] := by
    intro hcon
    rw [hcon] at hlen'
    simp only [List.length_nil] at hlen'
    omega
  refine ⟨ihm'.cursor_lt hne', ?_⟩
  have hsetlen : (m.players.set m.current_player_index p').length = m.players.length :=
    List.length_set _ _ _
  rcases hbr with ⟨hfc, hm'⟩ | ⟨hfc, hm'⟩
  · obtain ⟨q, hq, hqc⟩ := hsome
    have hj' : ∃ j, j < m'.players.length ∧ m'.players.getD j defaultGame = q := by
      obtain ⟨j, hj, hjq⟩ := List.mem_iff_getElem.mp hq
      exact ⟨j, hj, by rw [List.getD_eq_getElem _ _ hj]; exact hjq⟩
    obtain ⟨j, hj, hjq⟩ := hj'
    have hjlt : j < (m.players.set m.current_player_index p').length := by
      rw [hsetlen]; omega
    have hjget : (m.players.set m.current_player_index p').getD j defaultGame = q := by
      rw [← hpl]; exact hjq
    have hidx0 : (m.current_player_index + 1) %
        (m.players.set m.current_player_index p').length <
        (m.players.set m.current_player_index p').length :=
      Nat.mod_lt _ (by rw [hsetlen]; omega)
    rw [hm', GameManager.advance_to_next_player]
    dsimp only
    exact skipComplete_spec _ _ _ hidx0
      (exists_scan_hit _ _ j hidx0 hjlt (by rw [hjget]; exact hqc))
  · rw [hm']
    dsimp only
    rw [getD_set_same _ _ _ _ hclen]
    have hInvp : Inv (m.players.getD m.current_player_index defaultGame) :=
      reach_inv _ (ih.players_reach _ (getD_mem _ _ _ hclen))
    exact add_roll_not_complete _ p' pins r0 hInvp.cf_le hadd hfc

/-- Characterization of the `get_winner` scan: either no score beats the
running highest and the accumulator is returned, or the first player
achieving the maximum score is returned. -/
theorem winnerLoop_spec : ∀ (ps : List BowlingGame) (w : Option BowlingGame) (h : Int),
    ((∀ p ∈ ps, ∀ t, p.get_total_score = some t → t ≤ h) ∧ winnerLoop ps w h = w) ∨
    (∃ i, i < ps.length ∧ ∃ s,
        winnerLoop ps w h = some (ps.getD i defaultGame) ∧
        (ps.getD i defaultGame).get_total_score = some s ∧ h < s ∧
        (∀ j t, j < ps.length →
          (ps.getD j defaultGame).get_total_score = some t → t ≤ s) ∧
        (∀ j t, j < ps.length → j < i →
          (ps.getD j defaultGame).get_total_score = some t → t < s)) := by
  intro ps
  induction ps with
  | nil =>
    intro w h
    left
    exact ⟨fun p hp => absurd hp (by simp), rfl⟩
  | cons p ps ih =>
    intro w h
    rw [winnerLoop]
    cases hsc : p.get_total_score with
    | none =>
      dsimp only
      rcases ih w h with ⟨hall, heq⟩ | ⟨i, hi, s, heq, hscore, hgt, hmax, hstrict⟩
      · left
        refine ⟨?_, heq⟩
        intro q hq t ht
        rcases List.mem_cons.mp hq with hq0 | hqs
        · subst hq0
          rw [hsc] at ht
          exact absurd ht (by simp)
        · exact hall q hqs t ht
      · right
        refine ⟨i + 1, by simp only [List.length_cons]; omega, s, ?_, ?_, hgt, ?_, ?_⟩
        · rw [List.getD_cons_succ]
          exact heq
        · rw [List.getD_cons_succ]
          exact hscore
        · intro j t hj ht
          cases j with
          | zero =>
            rw [List.getD_cons_zero, hsc] at ht
            exact absurd ht (by simp)
          | succ j' =>
            rw [List.getD_cons_succ] at ht
            exact hmax j' t (by simp only [List.length_cons] at hj; omega) ht
        · intro j t hj hji ht
          cases j with
          | zero =>
            rw [List.getD_cons_zero, hsc] at ht
            exact absurd ht (by simp)
          | succ j' =>
            rw [List.getD_cons_succ] at ht
            exact hstrict j' t (by simp only [List.length_cons] at hj; omega)
              (by omega) ht
    | some s0 =>
      dsimp only
      by_cases hlt : h < s0
      · rw [if_pos hlt]
        rcases ih (some p) s0 with ⟨hall, heq⟩ | ⟨i, hi, s, heq, hscore, hgt, hmax, hstrict⟩
        · right
          refine ⟨0, by simp, s0, ?_, ?_, hlt, ?_, ?_⟩
          · rw [List.getD_cons_zero]
            exact heq
          · rw [List.getD_cons_zero]
            exact hsc
          · intro j t hj ht
            cases j with
            | zero =>
              rw [List.getD_cons_zero, hsc] at ht
              simp only [Option.some.injEq] at ht
              omega
            | succ j' =>
              rw [List.getD_cons_succ] at ht
              exact hall _ (getD_mem _ _ _
                (by simp only [List.length_cons] at hj; omega)) t ht
          · intro j t _ hj0 _
            omega
        · right
          refine ⟨i + 1, by simp only [List.length_cons]; omega, s, ?_, ?_,
            by omega, ?_, ?_⟩
          · rw [List.getD_cons_succ]
            exact heq
          · rw [List.getD_cons_succ]
            exact hscore
          · intro j t hj ht
            cases j with
            | zero =>
              rw [List.getD_cons_zero, hsc] at ht
              simp only [Option.some.injEq] at ht
              omega
            | succ j' =>
              rw [List.getD_cons_succ] at ht
              exact hmax j' t (by simp only [List.length_cons] at hj; omega) ht
          · intro j t hj hji ht
            cases j with
            | zero =>
              rw [List.getD_cons_zero, hsc] at ht
              simp only [Option.some.injEq] at ht
              omega
            | succ j' =>
              rw [List.getD_cons_succ] at ht
              exact hstrict j' t (by simp only [List.length_cons] at hj; omega)
                (by omega) ht
      · rw [if_neg hlt]
        rcases ih w h with ⟨hall, heq⟩ | ⟨i, hi, s, heq, hscore, hgt, hmax, hstrict⟩
        · left
          refine ⟨?_, heq⟩
          intro q hq t ht
          rcases List.mem_cons.mp hq with hq0 | hqs
          · subst hq0
            rw [hsc] at ht
            simp only [Option.some.injEq] at ht
            omega
          · exact hall q hqs t ht
        · right
          refine ⟨i + 1, by simp only [List.length_cons]; omega, s, ?_, ?_, hgt, ?_, ?_⟩
          · rw [List.getD_cons_succ]
            exact heq
          · rw [List.getD_cons_succ]
            exact hscore
          · intro j t hj ht
            cases j with
            | zero =>
              rw [List.getD_cons_zero, hsc] at ht
              simp only [Option.some.injEq] at ht
              omega
            | succ j' =>
              rw [List.getD_cons_succ] at ht
              exact hmax j' t (by simp only [List.length_cons] at hj; omega) ht
          · intro j t hj hji ht
            cases j with
            | zero =>
              rw [List.getD_cons_zero, hsc] at ht
              simp only [Option.some.injEq] at ht
              omega
            | succ j' =>
              rw [List.getD_cons_succ] at ht
              exact hstrict j' t (by simp only [List.length_cons] at hj; omega)
                (by omega) ht

/-- Core of the winner characterization on a non-empty reachable match:
`get_winner` returns no result exactly while some game is unfinished, and
otherwise returns the first player with the strictly highest total score. -/
theorem get_winner_spec (m : GameManager) (hR : ReachableM m) (hne : m.players ≠ []) :
    (m.get_winner = none ↔ ∃ p ∈ m.players, p.is_complete = false) ∧
    (∀ w, m.get_winner = some w →
      ∃ i, i < m.players.length ∧ w = m.players.getD i defaultGame ∧
        ∃ s, w.get_total_score = some s ∧
          (∀ j t, j < m.players.length →
            (m.players.getD j defaultGame).get_total_score = some t → t ≤ s) ∧
          (∀ j t, j < m.players.length → j < i →
            (m.players.getD j defaultGame).get_total_score = some t → t < s)) := by
  have hreach := (reachM_inv m hR).players_reach
  by_cases hall : ∀ p ∈ m.players, p.is_complete = true
  · have hallb : m.players.all (fun p => p.is_complete) = true := List.all_eq_true.mpr hall
    have hwdef : m.get_winner = winnerLoop m.players none (-1) := by
      rw [GameManager.get_winner, if_pos hallb]
    have hscores : ∀ p ∈ m.players, ∃ t, p.get_total_score = some t ∧ 0 ≤ t := fun p hp =>
      total_of_complete p (reach_inv p (hreach p hp)) (hall p hp)
    rcases winnerLoop_spec m.players none (-1) with ⟨hallle, heq⟩ |
      ⟨i, hi, s, heq, hscore, hgt, hmax, hstrict⟩
    · exfalso
      obtain ⟨p0, hp0⟩ := List.exists_mem_of_ne_nil m.players hne
      obtain ⟨t, ht, ht0⟩ := hscores p0 hp0
      have := hallle p0 hp0 t ht
      omega
    · constructor
      · constructor
        · intro hnone
          rw [hwdef, heq] at hnone
          exact absurd hnone (by simp)
        · intro hex
          obtain ⟨p, hp, hpc⟩ := hex
          exact absurd (hall p hp) (by rw [hpc]; simp)
      · intro w hw
        rw [hwdef, heq] at hw
        simp only [Option.some.injEq] at hw
        subst hw
        exact ⟨i, hi, rfl, s, hscore,
          fun j t hj ht => hmax j t hj ht,
          fun j t hj hji ht => hstrict j t hj hji ht⟩
  · have hwnone : m.get_winner = none := by
      rw [GameManager.get_winner,
        if_neg (fun hcon => hall (List.all_eq_true.mp hcon))]
    have hex : ∃ p ∈ m.players, p.is_complete = false := by
      push_neg at hall
      obtain ⟨p, hp, hpc⟩ := hall
      refine ⟨p, hp, ?_⟩
      cases hb : p.is_complete with
      | false => rfl
      | true => exact absurd hb hpc
    refine ⟨⟨fun _ => hex, fun _ => hwnone⟩, ?_⟩
    intro w hw
    rw [hwnone] at hw
    exact absurd hw (by simp)

theorem max_pins_second_roll (g : BowlingGame) (hc : g.is_complete = false)
    (h9 : g.current_frame < 9) (a : Int)
    (hf : g.frames.getD g.current_frame [] = [a]) :
    g.get_max_pins_for_current_roll = 10 - a := by
  rw [BowlingGame.get_max_pins_for_current_roll]
  rw [if_neg (by rw [hc]; simp)]
  simp only [hf]
  rw [if_neg (by simp)]
  rw [if_neg (by intro hcon; omega)]
  rw [if_neg (by intro hcon; omega)]
  simp

theorem gated_inv (g : BowlingGame) (h : ReachableGated g) : Inv g ∧ PInv g := by
  induction h with
  | init player_id player_name game_id =>
    refine ⟨inv_init player_id player_name game_id, ?_⟩
    intro i hi
    rw [show (initGame player_id player_name game_id).frames = List.replicate 10 []
      from rfl, getD_replicate_nil]
    simp
  | step g g' pins r hg hmax hok ih =>
    obtain ⟨hInv, hP⟩ := ih
    refine ⟨add_roll_inv g g' pins r hInv hok, ?_⟩
    obtain ⟨hc, h0, h10, _, _, _, hfr, hcase⟩ := add_roll_ok_spec g g' pins r hInv.cf_le hok
    have hcf_lt_len : g.current_frame < g.frames.length := by
      have := hInv.cf_le
      rw [hInv.flen]
      omega
    have hself := newFrames_getD_self g pins hcf_lt_len
    intro i hi
    rcases hcase with ⟨h9, hp, _, _, _⟩ | ⟨h9, hp, hl, _, _, _⟩ |
      ⟨h9, hp, hl, _, _, _⟩ | ⟨h9, _, _, _, _, _⟩ | ⟨h9, _, _, _, _, _, _, _⟩ |
      ⟨h9, _, _, _, _, _, _⟩ | ⟨h9, _, _, _, _, _, _⟩ | ⟨h9, _, _, _, _, _, _⟩
    -- case 1: strike in frames 1-9
    · by_cases hie : i = g.current_frame
      · rw [hie, hfr, hself]
        rcases hfold : g.frames.getD g.current_frame [] with _ | ⟨a, tl⟩
        · subst hp
          simp
        · rcases tl with _ | ⟨b, tl2⟩
          · subst hp
            have hmx := max_pins_second_roll g hc h9 a hfold
            rw [hmx] at hmax
            have ha := (hInv.cur h9).2 a (by rw [hfold]; exact List.mem_cons_self a [])
            have ha0 : a = 0 := by omega
            subst ha0
            simp
          · exfalso
            have := (hInv.cur h9).1
            rw [hfold] at this
            simp at this
      · rw [hfr, newFrames_getD_other g pins i (fun hcon => hie hcon.symm)]
        exact hP i hi
    -- case 2: second roll completes a frame 1-9
    · by_cases hie : i = g.current_frame
      · rw [hie, hfr, hself]
        have hlold : (g.frames.getD g.current_frame []).length = 1 := by
          rw [curF1, hself] at hl
          simp only [List.length_append, List.length_singleton] at hl
          omega
        obtain ⟨a, ha⟩ := List.length_eq_one.mp hlold
        rw [ha]
        have hmx := max_pins_second_roll g hc h9 a ha
        rw [hmx] at hmax
        simp only [List.singleton_append, List.take, List.sum_cons, List.sum_nil]
        omega
      · rw [hfr, newFrames_getD_other g pins i (fun hcon => hie hcon.symm)]
        exact hP i hi
    -- case 3: first roll of a frame 1-9
    · by_cases hie : i = g.current_frame
      · rw [hie, hfr, hself]
        have hlold : g.frames.getD g.current_frame [] = [] := by
          rcases hfold : g.frames.getD g.current_frame [] with _ | ⟨a, tl⟩
          · rfl
          · exfalso
            rcases tl with _ | ⟨b, tl2⟩
            · apply hl
              rw [curF1, hself, hfold]
              simp
            · have := (hInv.cur h9).1
              rw [hfold] at this
              simp at this
        rw [hlold]
        simp only [List.nil_append, List.take, List.sum_cons, List.sum_nil]
        omega
      · rw [hfr, newFrames_getD_other g pins i (fun hcon => hie hcon.symm)]
        exact hP i hi
    -- cases 4-8: frame 10; frames 1-9 unchanged
    all_goals
      rw [hfr, newFrames_getD_other g pins i (by omega)]
    all_goals exact hP i hi

theorem reach_applyRolls : ∀ (rolls : List Int) (g g' : BowlingGame),
    Reachable g → applyRolls g rolls = some g' → Reachable g' := by
  intro rolls
  induction rolls with
  | nil =>
    intro g g' hg h
    simp only [applyRolls, Option.some.injEq] at h
    rw [← h]
    exact hg
  | cons p ps ih =>
    intro g g' hg h
    rw [applyRolls] at h
    cases hadd : g.add_roll p with
    | error e =>
      rw [hadd] at h
      dsimp only at h
      exact absurd h (by simp)
    | ok pr =>
      obtain ⟨g1, r1⟩ := pr
      rw [hadd] at h
      dsimp only at h
      exact ih g1 g' (Reachable.step g g1 p r1 hg hadd) h

theorem reachM_applyM : ∀ (rolls : List Int) (m m' : GameManager),
    ReachableM m → applyRollsM m rolls = some m' → ReachableM m' := by
  intro rolls
  induction rolls with
  | nil =>
    intro m m' hm h
    simp only [applyRollsM, Option.some.injEq] at h
    rw [← h]
    exact hm
  | cons p ps ih =>
    intro m m' hm h
    rw [applyRollsM] at h
    cases hrec : m.record_roll p with
    | error e =>
      rw [hrec] at h
      dsimp only at h
      exact absurd h (by simp)
    | ok pr =>
      obtain ⟨m1, r1⟩ := pr
      rw [hrec] at h
      dsimp only at h
      exact ih m1 m' (ReachableM.roll m m1 p r1 hm hrec) h

/-- C1, counterexample: the claim "submit_roll never accepts a second roll
that brings a non-strike frame's pin total above 10" is false on the code.
`add_roll` validates only `0 ≤ pins ≤ 10`, so submit_roll(5) followed by
submit_roll(8) both succeed, and the reachable state `overTenGame` has a
non-bonus frame 1 (first roll 5 < 10) whose first two rolls sum to 13. -/
theorem C1_counterexample :
    Reachable overTenGame ∧
    (overTenGame.frames.getD 0 []).headD 0 < 10 ∧
    10 < ((overTenGame.frames.getD 0 []).take 2).sum := by
  refine ⟨?_, by decide, by decide⟩
  exact Reachable.step midGame overTenGame 8 ⟨false, false, true, false⟩
    (Reachable.step (initGame 0 "" none) midGame 5 ⟨false, false, false, false⟩
      (Reachable.init 0 "" none) rfl) rfl

/-- C1 (amended): in every state reachable through successful submit_roll
calls in which every roll also respects `get_max_pins_for_current_roll` (as
the presentation layer guarantees by disabling higher pin buttons), every
non-bonus frame among frames 1-9 (first roll below 10) has its first two
rolls summing to at most 10.  `submit_roll` itself does not enforce the
bound. -/
theorem C1_frame_pin_bound_gated (g : BowlingGame) (hg : ReachableGated g)
    (i : Nat) (hi : i < 9) (_hnb : (g.frames.getD i []).headD 0 < 10) :
    ((g.frames.getD i []).take 2).sum ≤ 10 :=
  (gated_inv g hg).2 i hi

/-- Witness for C1: the gated bound instantiated at a fresh game. -/
theorem C1_witness :
    (((initGame 0 "" none).frames.getD 0 []).take 2).sum ≤ 10 :=
  C1_frame_pin_bound_gated (initGame 0 "" none) (ReachableGated.init 0 "" none)
    0 (by omega) (by decide)

/-- C2: submit_roll fails exactly when the game is complete (message "Game
is already complete") or the pins are out of range 0-10 (message "Pins must
be between 0 and 10"), and succeeds whenever the game is not complete and
`0 ≤ pins ≤ 10`.  In the embedding a failing call returns only the error
value and no successor state, so no state mutation on failure holds by
construction, matching the source which raises before mutating. -/
theorem C2_submit_roll_failure_iff (g : BowlingGame) (pins : Int) :
    (g.is_complete = true → g.add_roll pins = Except.error "Game is already complete") ∧
    (g.is_complete = false → (pins < 0 ∨ 10 < pins) →
      g.add_roll pins = Except.error "Pins must be between 0 and 10") ∧
    (g.is_complete = false → 0 ≤ pins → pins ≤ 10 →
      ∃ g' r, g.add_roll pins = Except.ok (g', r)) :=
  ⟨add_roll_error_complete g pins, add_roll_error_range g pins,
    add_roll_ok_of_valid g pins⟩

/-- Witness for C2: a roll of 5 on a fresh game succeeds. -/
theorem C2_witness :
    ∃ g' r, (initGame 0 "" none).add_roll 5 = Except.ok (g', r) :=
  (C2_submit_roll_failure_iff (initGame 0 "" none) 5).2.2 rfl (by omega) (by omega)

/-- C3: the clauses of frame_score - empty frame not computable; frame 10
scored as the plain sum of its rolls with no look-ahead; a strike in frames
1-9 scored as 10 plus the next two rolls gathered frame-by-frame across
subsequent frames (not computable with fewer than two); a spare as 10 plus
the next roll (not computable with none); an open two-roll frame as its
sum - and the two consequences: a perfect game of 12 tens totals 300 with
exactly 3 rolls in frame 10, and 20 gutter rolls total 0. -/
theorem C3_frame_score :
    (∀ g : BowlingGame, ∀ i, i ≤ 9 → g.frames.getD i [] = [] →
      g.calculate_frame_score i = none) ∧
    (∀ g : BowlingGame, g.frames.getD 9 [] ≠ [] →
      g.calculate_frame_score 9 = some (g.frames.getD 9 []).sum) ∧
    (∀ g : BowlingGame, g.frames.length = 10 → ∀ i, i < 9 →
      g.frames.getD i [] ≠ [] → (g.frames.getD i []).headD 0 = 10 →
      (2 ≤ (rollsAfter g i).length →
        g.calculate_frame_score i = some (10 + ((rollsAfter g i).take 2).sum)) ∧
      ((rollsAfter g i).length < 2 → g.calculate_frame_score i = none)) ∧
    (∀ g : BowlingGame, g.frames.length = 10 → ∀ i, i < 9 →
      (g.frames.getD i []).headD 0 ≠ 10 → (g.frames.getD i []).length = 2 →
      (g.frames.getD i []).sum = 10 →
      (rollsAfter g i ≠ [] →
        g.calculate_frame_score i = some (10 + (rollsAfter g i).headD 0)) ∧
      (rollsAfter g i = [] → g.calculate_frame_score i = none)) ∧
    (∀ g : BowlingGame, ∀ i, i < 9 →
      (g.frames.getD i []).headD 0 ≠ 10 → (g.frames.getD i []).length = 2 →
      (g.frames.getD i []).sum ≠ 10 →
      g.calculate_frame_score i = some (g.frames.getD i []).sum) ∧
    applyRolls (initGame 0 "" none) (List.replicate 12 10) = some perfectGameState ∧
    perfectGameState.get_total_score = some 300 ∧
    (perfectGameState.frames.getD 9 []).length = 3 ∧
    applyRolls (initGame 0 "" none) (List.replicate 20 0) = some gutterGameState ∧
    gutterGameState.get_total_score = some 0 := by
  refine ⟨?_, ?_, ?_, ?_, ?_, by decide, by decide, by decide, by decide, by decide⟩
  · intro g i _ h
    exact score_empty g i h
  · intro g h
    exact score_tenth g h
  · intro g hlen i hi hne hhead
    constructor
    · intro h2
      rw [score_strike g i hlen hi hne hhead, if_neg (by omega)]
    · intro h2
      rw [score_strike g i hlen hi hne hhead, if_pos h2]
  · intro g hlen i hi hhead hl2 hsum
    constructor
    · intro hne
      rw [score_spare g i hlen hi hhead hl2 hsum, if_neg hne]
    · intro hnil
      rw [score_spare g i hlen hi hhead hl2 hsum, if_pos hnil]
  · intro g i hi hhead hl2 hsum
    exact score_open g i hi hhead hl2 hsum

/-- Witness for C3: the empty-frame clause instantiated at a fresh game. -/
theorem C3_witness : (initGame 0 "" none).calculate_frame_score 0 = none :=
  C3_frame_score.1 (initGame 0 "" none) 0 (by omega) (by decide)

/-- C4: after every successful record_roll on a reachable (hence non-empty)
match, whenever at least one player's game is not complete, the
active-player cursor is in range and refers to a non-complete Player Game.
Rotation is the modulo-advance with a complete-player skip scan bounded by
the player count (`advance_to_next_player` / `skipComplete`). -/
theorem C4_active_cursor (m m' : GameManager) (pins : Int) (r : MatchRollResult)
    (hR : ReachableM m) (hok : m.record_roll pins = Except.ok (m', r))
    (hsome : ∃ p ∈ m'.players, p.is_complete = false) :
    m'.current_player_index < m'.players.length ∧
    (m'.players.getD m'.current_player_index defaultGame).is_complete = false :=
  record_roll_cursor_active m m' pins r hR hok hsome

/-- Witness for C4: a first roll of 0 in a one-player match leaves the
cursor on the (still unfinished) player. -/
theorem C4_witness :
    startM1.record_roll 0 = Except.ok (afterM1, ⟨false, false, false, false, "A", false⟩) ∧
    (afterM1.players.getD afterM1.current_player_index defaultGame).is_complete = false := by
  refine ⟨rfl, ?_⟩
  exact (C4_active_cursor startM1 afterM1 0 ⟨false, false, false, false, "A", false⟩
    (ReachableM.add initManager 1 "A" none ReachableM.init) rfl
    ⟨⟨1, "A", none, [[0], [], [], [], [], [], [], [], [], []], 0, false⟩,
      by decide, rfl⟩).2

/-- C5, counterexample: the claim that a 10 on frame 10's second or third
delivery is flagged is_strike (and that all 12 descriptors of a perfect
game are so flagged) is false on the code: `add_roll` sets is_strike in
frame 10 only when the frame holds exactly one roll after the append, so in
a perfect game the descriptors of rolls 11 and 12 have is_strike = false. -/
theorem C5_counterexample :
    (applyRollsResults (initGame 0 "" none) (List.replicate 12 10)).map
      (fun p => p.2.map (fun d => d.is_strike)) =
    some [true, true, true, true, true, true, true, true, true, true, false, false] := by
  decide

/-- C5 (amended): in frame 10 the descriptor has is_strike = true exactly
when the delivery is the frame's first roll and knocks down 10 pins;
deliveries of 10 on the second or third roll are not flagged.  In a perfect
game descriptors 1-10 carry is_strike and descriptors 11-12 do not. -/
theorem C5_tenth_frame_strike_flag :
    (∀ (g g' : BowlingGame) (pins : Int) (r : RollResult),
      g.frames.length = 10 → g.current_frame = 9 →
      g.add_roll pins = Except.ok (g', r) →
      (r.is_strike = true ↔ (g.frames.getD 9 [] = [] ∧ pins = 10))) ∧
    (applyRollsResults (initGame 0 "" none) (List.replicate 12 10)).map
      (fun p => p.2.map (fun d => d.is_strike)) =
    some [true, true, true, true, true, true, true, true, true, true, false, false] := by
  constructor
  · intro g g' pins r hlen h9 hok
    obtain ⟨hc, h0, h10, _, _, _, hfr, hcase⟩ :=
      add_roll_ok_spec g g' pins r (by omega) hok
    have hten : tenF g pins = g.frames.getD 9 [] ++ [pins] := by
      rw [tenF, newFrames, h9]
      exact getD_set_same _ _ _ _ (by omega)
    have htlen : (tenF g pins).length = (g.frames.getD 9 []).length + 1 := by
      rw [hten]
      simp
    rcases hcase with ⟨h9', _, _, _, _⟩ | ⟨h9', _, _, _, _, _⟩ |
      ⟨h9', _, _, _, _, _⟩ | ⟨_, hl1, hp10, _, _, hr⟩ |
      ⟨_, hns, hl2, _, _, _, _, hr⟩ | ⟨_, hns, hl2, _, _, _, hr⟩ |
      ⟨_, hns, hl2, hl3, _, _, hr⟩ | ⟨_, hns, hl2, hl3, _, _, hr⟩
    · omega
    · omega
    · omega
    · rw [hr]
      constructor
      · intro _
        exact ⟨by rw [← List.length_eq_zero]; omega, hp10⟩
      · intro _
        rfl
    · rw [hr]
      simp only [Bool.false_eq_true, false_iff]
      rintro ⟨hnil, _⟩
      rw [hnil] at htlen
      simp at htlen
      omega
    · rw [hr]
      simp only [Bool.false_eq_true, false_iff]
      rintro ⟨hnil, _⟩
      rw [hnil] at htlen
      simp at htlen
      omega
    · rw [hr]
      simp only [Bool.false_eq_true, false_iff]
      rintro ⟨hnil, _⟩
      rw [hnil] at htlen
      simp at htlen
      omega
    · rw [hr]
      simp only [Bool.false_eq_true, false_iff]
      rintro ⟨hnil, hp⟩
      rw [hnil] at htlen
      simp at htlen
      exact hns ⟨by omega, hp⟩
  · decide

/-- Witness for C5: the first delivery in an empty tenth frame, a 10, is
flagged is_strike. -/
theorem C5_witness :
    ∃ g' r, tenthTestGame.add_roll 10 = Except.ok (g', r) ∧ r.is_strike = true := by
  refine ⟨⟨0, "", none, [[], [], [], [], [], [], [], [], [], [10]], 9, false⟩,
    ⟨true, false, false, false⟩, rfl, ?_⟩
  exact (C5_tenth_frame_strike_flag.1 tenthTestGame
    ⟨0, "", none, [[], [], [], [], [], [], [], [], [], [10]], 9, false⟩ 10
    ⟨true, false, false, false⟩ (by decide) rfl rfl).mpr ⟨by decide, rfl⟩

/-- C6: the provisional frame score (modelled from the spec, see
`BowlingGame.get_provisional_frame_score`) agrees with frame_score on every
frame whose score is computable, in every state. -/
theorem C6_provisional_agrees (g : BowlingGame) (i : Nat) (s : Int)
    (h : g.calculate_frame_score i = some s) :
    g.get_provisional_frame_score i = s :=
  provisional_eq_score g i s h

/-- Witness for C6: an open [3, 4] frame scores 7 both ways. -/
theorem C6_witness :
    openFrameGame.get_provisional_frame_score 0 = 7 :=
  C6_provisional_agrees openFrameGame 0 7 (by decide)

/-- C7: on a non-empty reachable match, winner() returns no result exactly
while some Frame Engine is not complete; once every engine is complete it
returns a player whose total_score is at least every player's and strictly
above every earlier player's, i.e. the first player with the strictly
highest total (ties resolved by join order). -/
theorem C7_winner (m : GameManager) (hR : ReachableM m) (hne : m.players ≠ []) :
    (m.get_winner = none ↔ ∃ p ∈ m.players, p.is_complete = false) ∧
    (∀ w, m.get_winner = some w →
      ∃ i, i < m.players.length ∧ w = m.players.getD i defaultGame ∧
        ∃ s, w.get_total_score = some s ∧
          (∀ j t, j < m.players.length →
            (m.players.getD j defaultGame).get_total_score = some t → t ≤ s) ∧
          (∀ j t, j < m.players.length → j < i →
            (m.players.getD j defaultGame).get_total_score = some t → t < s)) :=
  get_winner_spec m hR hne

/-- Witness for C7: a finished one-player gutter match has a winner, so
get_winner is not none, matching the right-hand side being false. -/
theorem C7_witness :
    applyRollsM startM1 (List.replicate 20 0) = some gutterMatchDone ∧
    (gutterMatchDone.get_winner = none ↔
      ∃ p ∈ gutterMatchDone.players, p.is_complete = false) := by
  refine ⟨by decide, ?_⟩
  exact (C7_winner gutterMatchDone
    (reachM_applyM (List.replicate 20 0) startM1 gutterMatchDone
      (ReachableM.add initManager 1 "A" none ReachableM.init) (by decide))
    (by decide)).1

/-- C8: cumulative_scores() has exactly 10 entries; entry k equals the sum
of frame_score over frames 1..k+1 (none as soon as one of them is not yet
computable); defined entries are monotonically non-decreasing; and once an
entry is none every later entry is none. -/
theorem C8_cumulative (g : BowlingGame) (hR : Reachable g) :
    (g.get_cumulative_scores).length = 10 ∧
    (∀ k, k < 10 → (g.get_cumulative_scores).getD k none = sumScoresFrom g 0 k) ∧
    (∀ j k a b, j ≤ k → k < 10 →
      (g.get_cumulative_scores).getD j none = some a →
      (g.get_cumulative_scores).getD k none = some b → a ≤ b) ∧
    (∀ j k, j ≤ k → k < 10 →
      (g.get_cumulative_scores).getD j none = none →
      (g.get_cumulative_scores).getD k none = none) := by
  have hInv := reach_inv g hR
  have hnn : ∀ i s, g.calculate_frame_score i = some s → 0 ≤ s :=
    fun i s h => score_nonneg g hInv i s h
  have hentry : ∀ k, k < 10 →
      (g.get_cumulative_scores).getD k none = sumScoresFrom g 0 k := by
    intro k hk
    rw [BowlingGame.get_cumulative_scores, cum_getD g 10 0 0 k hk]
    cases sumScoresFrom g 0 k with
    | none => rfl
    | some s => simp
  refine ⟨?_, hentry, ?_, ?_⟩
  · rw [BowlingGame.get_cumulative_scores]
    exact cum_length g 10 0 0
  · intro j k a b hjk hk ha hb
    rw [hentry j (by omega)] at ha
    rw [hentry k hk] at hb
    obtain ⟨a', ha', hle⟩ := sumScoresFrom_mono g hnn k j 0 b hjk hb
    rw [ha] at ha'
    simp only [Option.some.injEq] at ha'
    omega
  · intro j k hjk hk hj
    rw [hentry j (by omega)] at hj
    rw [hentry k hk]
    exact sumScoresFrom_none_mono g k j 0 hjk hj

/-- Witness for C8: a fresh game's scorecard has 10 entries. -/
theorem C8_witness : ((initGame 0 "" none).get_cumulative_scores).length = 10 :=
  (C8_cumulative (initGame 0 "" none) (Reachable.init 0 "" none)).1

/-- C9, counterexample: after a completed perfect game (a reachable state)
current_roll_number() returns 4, not 1, 2 or 3, because frame 10 holds
three rolls and the function returns frame length + 1 unconditionally. -/
theorem C9_counterexample :
    Reachable perfectGameState ∧ perfectGameState.get_current_roll_in_frame = 4 :=
  ⟨reach_applyRolls (List.replicate 12 10) (initGame 0 "" none) perfectGameState
    (Reachable.init 0 "" none) (by decide), by decide⟩

/-- C9 (amended): current_roll_number() returns the frame's recorded roll
count plus one (the 1-based position of the next roll in the active frame),
and in every reachable state in which the game is not yet complete the
result is 1, 2, or 3.  After completion it can return 4. -/
theorem C9_roll_number (g : BowlingGame) (hR : Reachable g)
    (hc : g.is_complete = false) :
    g.get_current_roll_in_frame = (g.frames.getD g.current_frame []).length + 1 ∧
    1 ≤ g.get_current_roll_in_frame ∧ g.get_current_roll_in_frame ≤ 3 := by
  have hInv := reach_inv g hR
  refine ⟨rfl, ?_, ?_⟩
  · rw [BowlingGame.get_current_roll_in_frame]
    omega
  · rw [BowlingGame.get_current_roll_in_frame]
    rcases Nat.lt_or_ge g.current_frame 9 with h9 | h9
    · have := (hInv.cur h9).1
      omega
    · have h9' : g.current_frame = 9 := by
        have := hInv.cf_le
        omega
      have := hInv.open9 hc h9'
      rw [h9']
      omega

/-- Witness for C9: a fresh game is on roll 1. -/
theorem C9_witness :
    1 ≤ (initGame 0 "" none).get_current_roll_in_frame ∧
    (initGame 0 "" none).get_current_roll_in_frame ≤ 3 :=
  (C9_roll_number (initGame 0 "" none) (Reachable.init 0 "" none) rfl).2

/-- C10: in frame 10, whenever the frame holds exactly two rolls summing to
10 after the delivery, the descriptor has is_spare = true - including a
strike followed by a gutter ball ([10, 0]), which is reported as a spare. -/
theorem C10_tenth_frame_spare_flag :
    (∀ (g g' : BowlingGame) (pins : Int) (r : RollResult),
      g.frames.length = 10 → g.current_frame = 9 →
      g.add_roll pins = Except.ok (g', r) →
      (g'.frames.getD 9 []).length = 2 → (g'.frames.getD 9 []).sum = 10 →
      r.is_spare = true) ∧
    (applyRollsResults tenthTestGame [10, 0]).map
      (fun p => p.2.map (fun d => d.is_spare)) = some [false, true] := by
  constructor
  · intro g g' pins r hlen h9 hok hl2 hsum
    obtain ⟨hc, h0, h10, _, _, _, hfr, hcase⟩ :=
      add_roll_ok_spec g g' pins r (by omega) hok
    have hteq : g'.frames.getD 9 [] = tenF g pins := by
      rw [hfr, tenF]
    rw [hteq] at hl2 hsum
    rcases hcase with ⟨h9', _, _, _, _⟩ | ⟨h9', _, _, _, _, _⟩ |
      ⟨h9', _, _, _, _, _⟩ | ⟨_, hl1, _, _, _, hr⟩ |
      ⟨_, _, _, _, _, _, _, hr⟩ | ⟨_, _, _, _, _, _, hr⟩ |
      ⟨_, _, hne2, _, _, _, hr⟩ | ⟨_, _, hne2, _, _, _, hr⟩
    · omega
    · omega
    · omega
    · omega
    · rw [hr]
      simp [hsum]
    · rw [hr]
      simp [hsum]
    · exact absurd hl2 hne2
    · exact absurd hl2 hne2
  · decide

/-- Witness for C10: a strike then a gutter ball in frame 10 is flagged as
a spare. -/
theorem C10_witness :
    ∃ g' r, tenthStrikeGame.add_roll 0 = Except.ok (g', r) ∧ r.is_spare = true := by
  refine ⟨⟨0, "", none, [[], [], [], [], [], [], [], [], [], [10, 0]], 9, false⟩,
    ⟨false, true, false, false⟩, rfl, ?_⟩
  exact C10_tenth_frame_spare_flag.1 tenthStrikeGame
    ⟨0, "", none, [[], [], [], [], [], [], [], [], [], [10, 0]], 9, false⟩ 0
    ⟨false, true, false, false⟩ (by decide) rfl rfl (by decide) (by decide)

end Bowling
